import Mathlib

/-!
Shallow embedding of the git-branch-as-database write protocol of this
repository: safeWriteToBranch and its helper modules backupExistingBranch,
deleteBranches, createOrphanBranch, restoreBackup, writeFileContent and
commitAndPush, together with the data/version publishing tail of
mergeNewReportAndClearNoneTodayDataThenPushToDownloadRepo and
updateVersionBranch, all from scripts/processTrainDelayReport.ts, plus
the tracking-data contentProcessor from the tracking-report script.

A cloned git repository is modelled as an explicit state: a store of
commits (id, parent ids, file tree), local and remote branch pointers,
the HEAD ref, the working tree, and the scratch directories that live
next to the clone.  File trees are association lists from repo-relative
path to file content; the content type is a parameter so the same model
serves both the raw-string protocol and the structured version files.

Every awaited git or filesystem call that can throw in the source is
given an explicit fault point: an Option String field (none means the
call succeeds, some msg means it throws with message msg) or a Bool for
calls whose failure the source swallows on the spot.  Theorems quantify
over all fault schedules.  Each embedded function also returns the trace
of git commands it issued, which the ordering and retry theorems use.
-/

namespace TrainList

/-- A git commit: identifier, parent commit ids, and the committed file
tree (association list from repo-relative path to file content). -/
structure GitCommit (α : Type) where
  id : Nat
  parents : List Nat
  tree : List (String × α)
  deriving DecidableEq

/-- State of one cloned repository plus the scratch directories next to
it.  head is the ref HEAD points at; a branch is born iff its name has a
binding in localBranches (an unborn orphan branch is a head name with no
binding, exactly as after git checkout --orphan). -/
structure GitState (α : Type) where
  commits : List (GitCommit α)
  nextId : Nat
  localBranches : List (String × Nat)
  remoteBranches : List (String × Nat)
  head : String
  worktree : List (String × α)
  dirs : List (String × List (String × α))
  deriving DecidableEq

/-- Trace events: one per git/filesystem command the source issues.  An
event is emitted when the command is issued, whether or not it then
fails. -/
inductive Ev where
  | fetch
  | listRemote (b : String)
  | checkout (b : String)
  | checkoutOrphan (b : String)
  | resetHard
  | deleteLocal (b : String)
  | deleteRemote (b : String)
  | mkdir (d : String)
  | copyTo (d : String)
  | restore (d : String)
  | writeFile (p : String)
  | hook
  | addAll
  | commitMade (id : Nat)
  | skipCommit
  | push (b : String)
  | wait (secs : Nat)
  | rmdir (d : String)
  deriving DecidableEq

/-- First-match association-list lookup with String keys. -/
def lookupKey (k : String) : List (String × β) → Option β
  | [] => none
  | (a, b) :: t => if a = k then some b else lookupKey k t

/-- Remove every binding of a key. -/
def eraseKey (k : String) : List (String × β) → List (String × β)
  | [] => []
  | (a, b) :: t => if a = k then eraseKey k t else (a, b) :: eraseKey k t

/-- Key membership as a Bool. -/
def hasKey (k : String) (l : List (String × β)) : Bool :=
  (lookupKey k l).isSome

/-- Write (create or overwrite) one file in a tree. -/
def fsWrite (t : List (String × α)) (p : String) (v : α) : List (String × α) :=
  (p, v) :: eraseKey p t

/-- Copy a list of files item-wise into a tree (one fs.cpSync per item,
as the backup/restore loops do). -/
def applyWrites (t : List (String × α)) (ws : List (String × α)) : List (String × α) :=
  ws.foldl (fun acc pv => fsWrite acc pv.1 pv.2) t

/-- The tree of the commit a given id names (empty for a dangling id). -/
def GitState.treeOf (st : GitState α) (cid : Nat) : List (String × α) :=
  match st.commits.find? (fun c => c.id == cid) with
  | some c => c.tree
  | none => []

/-- git checkout of an existing branch name: succeeds on a local branch,
or (as git does inside a clone) creates a local branch from the remote
ref of that name; fails when neither exists.  Loads the tip tree into
the working tree. -/
def checkoutDWIM (st : GitState α) (name : String) : Option (GitState α) :=
  match lookupKey name st.localBranches with
  | some cid => some { st with head := name, worktree := st.treeOf cid }
  | none =>
    match lookupKey name st.remoteBranches with
    | some cid =>
      some { st with head := name,
                     localBranches := (name, cid) :: st.localBranches,
                     worktree := st.treeOf cid }
    | none => none

/-- The source strips the listing decoration with
replace of the remotes/origin/ marker; branch listings put it only at
the front, so this is modelled as a front strip. -/
def stripRemote (b : String) : String :=
  if b.startsWith "remotes/origin/" then b.drop 15 else b

/-- Result of one embedded stage: the error it threw (if any), the
state when it returned or threw, and the commands it issued. -/
structure StRes (α : Type) where
  err : Option String
  st : GitState α
  tr : List Ev

/-- Sequencing of stages: a thrown error short-circuits, traces
accumulate. -/
def seqStep (r : StRes α) (f : GitState α → StRes α) : StRes α :=
  match r.err with
  | some _ => r
  | none => let r2 := f r.st; ⟨r2.err, r2.st, r.tr ++ r2.tr⟩

theorem seqStep_err (e : String) (s : GitState α) (t : List Ev) (f : GitState α → StRes α) :
    seqStep ⟨some e, s, t⟩ f = ⟨some e, s, t⟩ := rfl

theorem seqStep_ok (s : GitState α) (t : List Ev) (f : GitState α → StRes α) :
    seqStep ⟨none, s, t⟩ f = ⟨(f s).err, (f s).st, t ++ (f s).tr⟩ := rfl

/-- Fault schedule for one write attempt: one point per awaited call
that can throw in the source.  Option String fields propagate into the
enclosing try/catch of safeWriteToBranch; Bool fields are failures the
source swallows where they happen. -/
structure AttemptFaults where
  fetchFail : Option String
  listRemoteFail : Option String
  backupCheckoutFail : Bool
  copyFail : Bool
  backupFinallyCheckoutFail : Bool
  restoreFail : Option String
  writeFail : Option String
  hookFail : Option String
  commitFail : Option String
  pushFail : Option String

/-- Schedule with no injected failures. -/
def noFaults : AttemptFaults :=
  ⟨none, none, false, false, false, none, none, none, none, none⟩

/-- The SafeWriteOptions object of the source.  The beforeCommit hook is
modelled by the list of file writes it performs in the working tree; now
stands for the Date.now() timestamp the call observes. -/
structure SafeWriteOpts (α : Type) where
  masterBranch : String
  branchName : String
  needBackup : Bool
  filePathInRepo : String
  fileContent : α
  commitMessage : String
  branchesToDeleteBeforeWrite : List String
  contentProcessor : Option (Option α → α)
  beforeCommit : Option (List (String × α))
  now : Nat

/-- Name of the per-attempt scratch backup directory. -/
def backupDirName (opts : SafeWriteOpts α) (k : Nat) : String :=
  ".git_backup_temp_" ++ opts.branchName ++ "_" ++ toString opts.now ++ "_" ++ toString k

/-- Name of the throwaway local branch the backup module checks out. -/
def tempBackupBranch (branchName : String) (now : Nat) : String :=
  "temp_backup_" ++ branchName ++ "_" ++ toString now

/-- Fallback cleanup inside the finally block of backupExistingBranch:
checkout of the orphan placeholder, hard reset, then deletion of the
temporary backup branch; if even the orphan checkout fails (placeholder
name already a local branch) the source only warns and returns. -/
def finallyOrphanCleanup (tmpB : String) (st : GitState α) (tr : List Ev) : StRes α :=
  if hasKey "temp_placeholder_for_cleanup" st.localBranches then
    ⟨none, st, tr ++ [Ev.checkoutOrphan "temp_placeholder_for_cleanup"]⟩
  else
    ⟨none, { st with head := "temp_placeholder_for_cleanup", worktree := [],
                     localBranches := eraseKey tmpB st.localBranches },
     tr ++ [Ev.checkoutOrphan "temp_placeholder_for_cleanup", Ev.resetHard,
            Ev.deleteLocal tmpB]⟩

/-- The try block of backupExistingBranch once the remote branch is
known to exist (tip commit cid): checkout -b of the throwaway local
backup branch (its failure, or an injected one, is caught and treated
as: proceed with an empty branch, no scratch directory), then mkdirSync
of the scratch directory and the copy loop (a copy failure leaves the
directory created but empty). -/
def backupTryPhase (o : AttemptFaults) (tmpB backupTempDir : String) (cid : Nat)
    (st : GitState α) : GitState α × List Ev :=
  if o.backupCheckoutFail || hasKey tmpB st.localBranches then
    (st, [Ev.checkout tmpB])
  else
    let s1 : GitState α :=
      { st with head := tmpB,
                localBranches := (tmpB, cid) :: st.localBranches,
                worktree := st.treeOf cid }
    if o.copyFail then
      ({ s1 with dirs := (backupTempDir, []) :: eraseKey backupTempDir s1.dirs },
       [Ev.checkout tmpB, Ev.mkdir backupTempDir])
    else
      ({ s1 with dirs := (backupTempDir, s1.worktree) :: eraseKey backupTempDir s1.dirs },
       [Ev.checkout tmpB, Ev.mkdir backupTempDir, Ev.copyTo backupTempDir])

/-- The finally block of backupExistingBranch: checkout of masterBranch
then deletion of the throwaway backup branch, falling back to the
orphan placeholder cleanup when that checkout throws. -/
def backupFinallyPhase (o : AttemptFaults) (tmpB masterBranch : String)
    (st : GitState α) (tr : List Ev) : StRes α :=
  if o.backupFinallyCheckoutFail then
    finallyOrphanCleanup tmpB st tr
  else
    match checkoutDWIM st masterBranch with
    | some s3 =>
      ⟨none, { s3 with localBranches := eraseKey tmpB s3.localBranches },
       tr ++ [Ev.deleteLocal tmpB]⟩
    | none => finallyOrphanCleanup tmpB st tr

/-- Module 1 (backupExistingBranch): back up the remote branch content
into the scratch directory.  fetch and listRemote run before the
try/catch and so propagate their errors to the caller; the checkout and
copy phase catches its own errors (treated as: proceed with an empty
branch); the finally block switches back to masterBranch, falling back
to the orphan placeholder, and deletes the temporary backup branch.  The
copy loop skips the .git entry; model working trees contain no such
entry, so the copy takes the whole tree. -/
def backupExistingBranch (o : AttemptFaults) (branchName backupTempDir masterBranch : String)
    (now : Nat) (st : GitState α) : StRes α :=
  match o.fetchFail with
  | some m => ⟨some m, st, [Ev.fetch]⟩
  | none =>
  match o.listRemoteFail with
  | some m => ⟨some m, st, [Ev.fetch, Ev.listRemote branchName]⟩
  | none =>
  match lookupKey branchName st.remoteBranches with
  | none => ⟨none, st, [Ev.fetch, Ev.listRemote branchName]⟩
  | some cid =>
    let tmpB := tempBackupBranch branchName now
    let tryRes := backupTryPhase o tmpB backupTempDir cid st
    let preTr := [Ev.fetch, Ev.listRemote branchName] ++ tryRes.2 ++ [Ev.checkout masterBranch]
    backupFinallyPhase o tmpB masterBranch tryRes.1 preTr

/-- The checkout of the literal branch name main at the start of each
deleteBranches iteration (the function receives no masterBranch), with
the orphan placeholder fallback when that checkout fails; every error
here is swallowed. -/
def checkoutMainForDelete (st : GitState α) : GitState α × List Ev :=
  match checkoutDWIM st "main" with
  | some s => (s, [Ev.checkout "main"])
  | none =>
    if hasKey "temp_placeholder_branch" st.localBranches then
      (st, [Ev.checkout "main", Ev.checkoutOrphan "temp_placeholder_branch"])
    else
      ({ st with head := "temp_placeholder_branch", worktree := [] },
       [Ev.checkout "main", Ev.checkoutOrphan "temp_placeholder_branch", Ev.resetHard])

/-- One iteration of module 2 (deleteBranches): checkout of main, then
remote and local forced deletion with every error swallowed (a branch
cannot be deleted while checked out, which the source also swallows). -/
def deleteOneBranch (st : GitState α) (fullBranchName : String) : GitState α × List Ev :=
  let actual := stripRemote fullBranchName
  let afterCo := checkoutMainForDelete st
  let s2 : GitState α :=
    { afterCo.1 with remoteBranches := eraseKey actual afterCo.1.remoteBranches }
  let s3 : GitState α :=
    if s2.head = actual then s2
    else { s2 with localBranches := eraseKey actual s2.localBranches }
  (s3, afterCo.2 ++ [Ev.deleteRemote actual, Ev.deleteLocal actual])

/-- Module 2 (deleteBranches): the loop over the whole list. -/
def deleteBranches (st : GitState α) : List String → GitState α × List Ev
  | [] => (st, [])
  | b :: bs =>
    let r := deleteOneBranch st b
    let rr := deleteBranches r.1 bs
    (rr.1, r.2 ++ rr.2)

/-- Module 3 (createOrphanBranch): checkout of masterBranch with the
failure only warned about, then checkout --orphan of the target (this
one not caught: it throws when a local branch of that name still
exists), then hard reset, leaving an unborn branch with an empty
working tree. -/
def createOrphanBranch (masterBranch branchName : String) (st : GitState α) : StRes α :=
  let s1 : GitState α × List Ev :=
    match checkoutDWIM st masterBranch with
    | some s => (s, [Ev.checkout masterBranch])
    | none => (st, [Ev.checkout masterBranch])
  if hasKey branchName s1.1.localBranches then
    ⟨some ("fatal: a branch named " ++ branchName ++ " already exists"), s1.1,
     s1.2 ++ [Ev.checkoutOrphan branchName]⟩
  else
    ⟨none, { s1.1 with head := branchName, worktree := [] },
     s1.2 ++ [Ev.checkoutOrphan branchName, Ev.resetHard]⟩

/-- Module 4 (restoreBackup): if the scratch directory exists its files
are copied item-wise into the working tree; a copy failure (not caught
in the source) propagates. -/
def restoreBackup (o : AttemptFaults) (backupTempDir : String) (st : GitState α) : StRes α :=
  match lookupKey backupTempDir st.dirs with
  | none => ⟨none, st, []⟩
  | some items =>
    match o.restoreFail with
    | some m => ⟨some m, st, [Ev.restore backupTempDir]⟩
    | none =>
      ⟨none, { st with worktree := applyWrites st.worktree items },
       [Ev.restore backupTempDir]⟩

/-- Module 5 (writeFileContent) as a pure function on the working tree:
with a contentProcessor the current on-disk content (none when the file
is absent) is passed through it; otherwise fileContent is written
directly. -/
def writeFileContent (tree : List (String × α)) (filePathInRepo : String)
    (fileContent : α) (contentProcessor : Option (Option α → α)) : List (String × α) :=
  let finalContent :=
    match contentProcessor with
    | some f => f (lookupKey filePathInRepo tree)
    | none => fileContent
  fsWrite tree filePathInRepo finalContent

/-- Module 6 (commitAndPush): stage everything, then commit and push
only when the status against the HEAD tip is non-empty; on an unborn
branch every working-tree file counts as a change.  The new commit's
parents are the tip of the current branch, hence none on an unborn
orphan branch. -/
def commitAndPush [DecidableEq α] (o : AttemptFaults) (branchName : String)
    (st : GitState α) : StRes α :=
  let changed : Bool :=
    match lookupKey st.head st.localBranches with
    | some cid => st.worktree != st.treeOf cid
    | none => st.worktree != ([] : List (String × α))
  if changed then
    match o.commitFail with
    | some m => ⟨some m, st, [Ev.addAll]⟩
    | none =>
      let parents : List Nat :=
        match lookupKey st.head st.localBranches with
        | some cid => [cid]
        | none => []
      let c : GitCommit α := ⟨st.nextId, parents, st.worktree⟩
      let s1 : GitState α :=
        { st with commits := c :: st.commits, nextId := st.nextId + 1,
                  localBranches := (st.head, c.id) :: eraseKey st.head st.localBranches }
      match o.pushFail with
      | some m => ⟨some m, s1, [Ev.addAll, Ev.commitMade c.id]⟩
      | none =>
        ⟨none,
         { s1 with remoteBranches := (branchName, c.id) :: eraseKey branchName s1.remoteBranches },
         [Ev.addAll, Ev.commitMade c.id, Ev.push branchName]⟩
  else ⟨none, st, [Ev.addAll, Ev.skipCommit]⟩

/-- Step 1 of an attempt: backup when needBackup, otherwise skipped. -/
def backupStep (o : AttemptFaults) (opts : SafeWriteOpts α) (dn : String) :
    GitState α → StRes α := fun st =>
  if opts.needBackup then
    backupExistingBranch o opts.branchName dn opts.masterBranch opts.now st
  else ⟨none, st, []⟩

/-- Step 2 of an attempt: forced branch deletion (never throws). -/
def deleteStep (bs : List String) : GitState α → StRes α := fun st =>
  let r := deleteBranches st bs
  ⟨none, r.1, r.2⟩

/-- Step 4 of an attempt: restore, only when needBackup. -/
def restoreStep (o : AttemptFaults) (opts : SafeWriteOpts α) (dn : String) :
    GitState α → StRes α := fun st =>
  if opts.needBackup then restoreBackup o dn st else ⟨none, st, []⟩

/-- Step 5 of an attempt as a stage. -/
def writeStep (o : AttemptFaults) (opts : SafeWriteOpts α) :
    GitState α → StRes α := fun st =>
  match o.writeFail with
  | some m => ⟨some m, st, []⟩
  | none =>
    let w := writeFileContent st.worktree opts.filePathInRepo opts.fileContent opts.contentProcessor
    ⟨none, { st with worktree := w }, [Ev.writeFile opts.filePathInRepo]⟩

/-- Step 6 of an attempt: the beforeCommit hook, modelled by the file
writes it performs; a throwing hook is modelled as writing nothing. -/
def hookStep (o : AttemptFaults) (opts : SafeWriteOpts α) :
    GitState α → StRes α := fun st =>
  match opts.beforeCommit with
  | none => ⟨none, st, []⟩
  | some ws =>
    match o.hookFail with
    | some m => ⟨some m, st, [Ev.hook]⟩
    | none => ⟨none, { st with worktree := applyWrites st.worktree ws }, [Ev.hook]⟩

/-- The seven steps of one write attempt, in source order. -/
def attemptBody [DecidableEq α] (o : AttemptFaults) (opts : SafeWriteOpts α) (dn : String)
    (st : GitState α) : StRes α :=
  seqStep (seqStep (seqStep (seqStep (seqStep (seqStep
    (backupStep o opts dn st)
    (deleteStep opts.branchesToDeleteBeforeWrite))
    (createOrphanBranch opts.masterBranch opts.branchName))
    (restoreStep o opts dn))
    (writeStep o opts))
    (hookStep o opts))
    (commitAndPush o opts.branchName)

/-- One attempt of safeWriteToBranch including the finally block that
removes the per-attempt scratch backup directory whether the attempt
returned or threw. -/
def runAttempt [DecidableEq α] (o : AttemptFaults) (opts : SafeWriteOpts α) (k : Nat)
    (st : GitState α) : StRes α :=
  let dn := backupDirName opts k
  let r := attemptBody o opts dn st
  ⟨r.err, { r.st with dirs := eraseKey dn r.st.dirs }, r.tr ++ [Ev.rmdir dn]⟩

/-- maxAttempts of the source. -/
def maxAttempts : Nat := 3

/-- The terminal error message template of safeWriteToBranch. -/
def terminalMsg (branchName lastMsg : String) : String :=
  "写入分支 " ++ branchName ++ " 失败，已达到最大重试次数3。最后一个错误: " ++ lastMsg

/-- Overall result of a safeWriteToBranch call. -/
structure RunResult (α : Type) where
  err : Option String
  st : GitState α
  trace : List Ev
  attemptsUsed : Nat

/-- The retry loop: attempt, and on a caught error either wait
2 ^ attempt seconds and retry from the backup step or, when the third
attempt has failed, throw the terminal error carrying the last message. -/
def swLoop [DecidableEq α] (faults : Nat → AttemptFaults) (opts : SafeWriteOpts α) :
    Nat → Nat → GitState α → List Ev → RunResult α
  | 0, attempt, st, tr => ⟨some (terminalMsg opts.branchName ""), st, tr, attempt⟩
  | fuel + 1, attempt, st, tr =>
    let r := runAttempt (faults attempt) opts attempt st
    match r.err with
    | none => ⟨none, r.st, tr ++ r.tr, attempt⟩
    | some m =>
      match fuel with
      | 0 => ⟨some (terminalMsg opts.branchName m), r.st, tr ++ r.tr, attempt⟩
      | fuel2 + 1 =>
        swLoop faults opts (fuel2 + 1) (attempt + 1) r.st (tr ++ r.tr ++ [Ev.wait (2 ^ attempt)])

/-- safeWriteToBranch: up to three attempts with exponential backoff. -/
def safeWriteToBranch [DecidableEq α] (faults : Nat → AttemptFaults) (opts : SafeWriteOpts α)
    (st : GitState α) : RunResult α :=
  swLoop faults opts maxAttempts 1 st []

/-- git checkout -b name start (simple-git checkoutBranch): creates a
new local branch at the tip of the local branch start; fails when a
local branch of that name already exists or start does not resolve. -/
def checkoutNewFrom (st : GitState α) (name start : String) : Option (GitState α) :=
  if hasKey name st.localBranches then none
  else
    match lookupKey start st.localBranches with
    | some cid =>
      some { st with head := name,
                     localBranches := (name, cid) :: st.localBranches,
                     worktree := st.treeOf cid }
    | none => none

/-- Contents of the download repository: compressed data blobs and
version pointer files (a JSON object kept as its field list). -/
inductive PContent where
  | blob (s : String)
  | ver (fields : List (String × String))
  deriving DecidableEq

/-- The version file object literal of updateVersionBranch: it has
exactly the fields the source writes. -/
def mkVersionData (newBranchName newFileName : String) : List (String × String) :=
  [("_version", newBranchName), ("_fileName", newFileName)]

/-- Repo-relative path of the version pointer file. -/
def versionFilePath (downloadType : String) : String :=
  "version/" ++ downloadType ++ ".version.json"

/-- Name of the version branch for a dataset. -/
def versionBranchName (downloadType : String) : String :=
  "version_" ++ downloadType

/-- Fault points of updateVersionBranch: the remote branch listing, the
checkout/creation of the version branch, the commit, the push (all
inside the try block whose error is caught and logged), and the final
cleanup checkout of the master branch which runs in the finally block. -/
structure VerFaults where
  listFail : Option String
  checkoutFail : Option String
  commitFail : Option String
  pushFail : Option String
  finallyFail : Option String

/-- Version-publish schedule with no injected failures. -/
def noVerFaults : VerFaults := ⟨none, none, none, none, none⟩

/-- The checkout performed by updateVersionBranch: the version branch
is checked out when it exists on the remote, otherwise created from the
module-level master branch. -/
def coVersionBranch (st : GitState PContent) (vb : String) : Option (GitState PContent) :=
  if hasKey vb st.remoteBranches then checkoutDWIM st vb
  else checkoutNewFrom st vb "master"

/-- The working tree of the version branch after the version pointer
file has been written. -/
def updVerWritten (newBranchName newFileName downloadType : String)
    (s1 : GitState PContent) : GitState PContent :=
  let w := fsWrite s1.worktree (versionFilePath downloadType)
    (PContent.ver (mkVersionData newBranchName newFileName))
  { s1 with worktree := w }

/-- The add/commit/push tail of updateVersionBranch (no status check:
the source commits unconditionally here). -/
def updVerCommitPush (o : VerFaults) (downloadType : String) (s2 : GitState PContent) :
    StRes PContent :=
  match o.commitFail with
  | some m =>
    ⟨some m, s2,
     [Ev.listRemote (versionBranchName downloadType), Ev.checkout (versionBranchName downloadType),
      Ev.writeFile (versionFilePath downloadType), Ev.addAll]⟩
  | none =>
    let parents : List Nat :=
      match lookupKey s2.head s2.localBranches with
      | some cid => [cid]
      | none => []
    let c : GitCommit PContent := ⟨s2.nextId, parents, s2.worktree⟩
    let s3 : GitState PContent :=
      { s2 with commits := c :: s2.commits, nextId := s2.nextId + 1,
                localBranches := (s2.head, c.id) :: eraseKey s2.head s2.localBranches }
    match o.pushFail with
    | some m =>
      ⟨some m, s3,
       [Ev.listRemote (versionBranchName downloadType), Ev.checkout (versionBranchName downloadType),
        Ev.writeFile (versionFilePath downloadType), Ev.addAll, Ev.commitMade c.id]⟩
    | none =>
      let rb := (versionBranchName downloadType, c.id) ::
        eraseKey (versionBranchName downloadType) s3.remoteBranches
      ⟨none, { s3 with remoteBranches := rb },
       [Ev.listRemote (versionBranchName downloadType), Ev.checkout (versionBranchName downloadType),
        Ev.writeFile (versionFilePath downloadType), Ev.addAll, Ev.commitMade c.id,
        Ev.push (versionBranchName downloadType)]⟩

/-- The try block of updateVersionBranch: list remote branches, check
out the version branch (or create it from the master branch), write the
version pointer file, add, commit and push. -/
def updVerTry (o : VerFaults) (downloadType newBranchName newFileName : String)
    (st : GitState PContent) : StRes PContent :=
  match o.listFail with
  | some m => ⟨some m, st, [Ev.listRemote (versionBranchName downloadType)]⟩
  | none =>
  match o.checkoutFail with
  | some m =>
    ⟨some m, st,
     [Ev.listRemote (versionBranchName downloadType), Ev.checkout (versionBranchName downloadType)]⟩
  | none =>
  match coVersionBranch st (versionBranchName downloadType) with
  | none =>
    ⟨some "checkout of version branch failed", st,
     [Ev.listRemote (versionBranchName downloadType), Ev.checkout (versionBranchName downloadType)]⟩
  | some s1 => updVerCommitPush o downloadType (updVerWritten newBranchName newFileName downloadType s1)

/-- updateVersionBranch: the try block's error is caught and only
logged; the finally block then checks out the master branch (the
module-level constant, literally named master), and an error of that
final checkout is the only one that propagates to the caller. -/
def updateVersionBranch (o : VerFaults) (downloadType newBranchName newFileName : String)
    (st : GitState PContent) : StRes PContent :=
  let r := updVerTry o downloadType newBranchName newFileName st
  match o.finallyFail with
  | some m => ⟨some m, r.st, r.tr ++ [Ev.checkout "master"]⟩
  | none =>
    match checkoutDWIM r.st "master" with
    | some s2 => ⟨none, s2, r.tr ++ [Ev.checkout "master"]⟩
    | none =>
      ⟨some "error: pathspec master did not match any file known to git", r.st,
       r.tr ++ [Ev.checkout "master"]⟩

/-- Fault points of the data-branch publish in
mergeNewReportAndClearNoneTodayDataThenPushToDownloadRepo. -/
structure PubFaults where
  commitFail : Option String
  pushFail : Option String

/-- The needCreateNewRepo block of the publish routine: create the new
data branch from master, write the compressed blob, add, commit, push,
and only then update the version branch.  The enclosing catch of the
routine rethrows, so the err field is what the caller of the routine
sees. -/
def publishData (o : PubFaults) (ov : VerFaults) (downloadType newBranchName blob : String)
    (st : GitState PContent) : StRes PContent :=
  match checkoutNewFrom st newBranchName "master" with
  | none => ⟨some "checkout -b of the data branch failed", st, [Ev.checkout newBranchName]⟩
  | some s1 =>
    let fileName := downloadType ++ ".msgpack.zst"
    let fp := downloadType ++ "/" ++ fileName
    let s2 : GitState PContent :=
      { s1 with worktree := fsWrite s1.worktree fp (PContent.blob blob) }
    match o.commitFail with
    | some m => ⟨some m, s2, [Ev.checkout newBranchName, Ev.writeFile fp, Ev.addAll]⟩
    | none =>
      let parents : List Nat :=
        match lookupKey s2.head s2.localBranches with
        | some cid => [cid]
        | none => []
      let c : GitCommit PContent := ⟨s2.nextId, parents, s2.worktree⟩
      let s3 : GitState PContent :=
        { s2 with commits := c :: s2.commits, nextId := s2.nextId + 1,
                  localBranches := (s2.head, c.id) :: eraseKey s2.head s2.localBranches }
      match o.pushFail with
      | some m =>
        ⟨some m, s3,
         [Ev.checkout newBranchName, Ev.writeFile fp, Ev.addAll, Ev.commitMade c.id]⟩
      | none =>
        let s4 : GitState PContent :=
          { s3 with remoteBranches := (newBranchName, c.id) :: eraseKey newBranchName s3.remoteBranches }
        let r := updateVersionBranch ov downloadType newBranchName fp s4
        ⟨r.err, r.st,
         [Ev.checkout newBranchName, Ev.writeFile fp, Ev.addAll, Ev.commitMade c.id,
          Ev.push newBranchName] ++ r.tr⟩

/-- File contents for the tracking-data branch, partitioned by how
JSON.parse treats them: raw text that does not parse, the serialized
form of an array of records (records kept as their serialized strings),
or valid JSON that is not an array. -/
inductive TrackContent where
  | text (s : String)
  | jsonArr (xs : List String)
  | jsonOther
  deriving DecidableEq

/-- Outcome of JSON.parse on a TrackContent. -/
inductive TrackJson where
  | arr (xs : List String)
  | other
  deriving DecidableEq

/-- JSON.parse: raw text fails, the other forms succeed. -/
def parseJson : TrackContent → Option TrackJson
  | TrackContent.text _ => none
  | TrackContent.jsonArr xs => some (TrackJson.arr xs)
  | TrackContent.jsonOther => some TrackJson.other

/-- JavaScript truthiness of the old content string: only the empty
string is falsy (serialized arrays and objects are never empty). -/
def truthy : TrackContent → Bool
  | TrackContent.text s => !(s == "")
  | TrackContent.jsonArr _ => true
  | TrackContent.jsonOther => true

/-- The contentProcessor of the tracking-report write path: parse the
old content, keep it only when it is an array, append the new reports,
and serialize the concatenation. -/
def contentProcessorTrack (newReports : List String) (oldContent : Option TrackContent) :
    TrackContent :=
  let existingReports : List String :=
    match oldContent with
    | none => []
    | some c =>
      if truthy c then
        match parseJson c with
        | some (TrackJson.arr xs) => xs
        | some TrackJson.other => []
        | none => []
      else []
  TrackContent.jsonArr (existingReports ++ newReports)

/-! ## Association-list lemmas -/

theorem lookupKey_eraseKey_self (k : String) (l : List (String × β)) :
    lookupKey k (eraseKey k l) = none := by
  induction l with
  | nil => rfl
  | cons p t ih =>
    obtain ⟨a, b⟩ := p
    by_cases h : a = k
    · simpa [eraseKey, h] using ih
    · simp [eraseKey, h, lookupKey, ih]

theorem lookupKey_eraseKey_ne (k q : String) (l : List (String × β)) (h : q ≠ k) :
    lookupKey q (eraseKey k l) = lookupKey q l := by
  induction l with
  | nil => rfl
  | cons p t ih =>
    obtain ⟨a, b⟩ := p
    by_cases h2 : a = k
    · subst h2
      simp [eraseKey, lookupKey, ih, Ne.symm h]
    · by_cases h3 : a = q <;> simp [eraseKey, lookupKey, h2, h3, h, ih]

theorem lookupKey_cons_ne (a k : String) (v : β) (l : List (String × β)) (h : a ≠ k) :
    lookupKey k ((a, v) :: l) = lookupKey k l := by
  simp [lookupKey, h]

theorem lookupKey_cons_self (a : String) (v : β) (l : List (String × β)) :
    lookupKey a ((a, v) :: l) = some v := by
  simp [lookupKey]

theorem lookupKey_fsWrite_self (t : List (String × α)) (p : String) (v : α) :
    lookupKey p (fsWrite t p v) = some v := by
  simp [fsWrite, lookupKey]

theorem lookupKey_fsWrite_ne (t : List (String × α)) (p q : String) (v : α) (h : q ≠ p) :
    lookupKey q (fsWrite t p v) = lookupKey q t := by
  simp [fsWrite, lookupKey, Ne.symm h, lookupKey_eraseKey_ne _ _ _ h]

theorem lookupKey_applyWrites_not_mem (t ws : List (String × α)) (q : String)
    (h : ∀ pv ∈ ws, pv.1 ≠ q) :
    lookupKey q (applyWrites t ws) = lookupKey q t := by
  induction ws generalizing t with
  | nil => rfl
  | cons pv rest ih =>
    have h1 : q ≠ pv.1 := Ne.symm (h pv (List.mem_cons_self pv rest))
    have h2 : ∀ x ∈ rest, x.1 ≠ q := fun x hx => h x (List.mem_cons_of_mem pv hx)
    show lookupKey q (applyWrites (fsWrite t pv.1 pv.2) rest) = lookupKey q t
    rw [ih (fsWrite t pv.1 pv.2) h2, lookupKey_fsWrite_ne t pv.1 q pv.2 h1]

/-! ## C4: contentProcessor semantics of the write step -/

/-- C4: with a contentProcessor, the write step stores exactly
contentProcessor(old) at filePathInRepo, where old is the file's
on-disk content at that moment (the tree right after the backup
restore inside safeWriteToBranch, whose write step calls this same
writeFileContent), or none when the file is absent; and the
tracking-data processor yields the serialization of the parsed old
record array concatenated with the new records, with absent,
unparseable, or non-array old content treated as empty, so that the
result then holds exactly the new records. -/
theorem c4_contentProcessor_semantics :
    (∀ (α : Type) (tree : List (String × α)) (p : String) (c : α) (f : Option α → α),
        lookupKey p (writeFileContent tree p c (some f)) = some (f (lookupKey p tree)))
    ∧ (∀ new : List String, contentProcessorTrack new none = TrackContent.jsonArr new)
    ∧ (∀ (new : List String) (s : String),
        contentProcessorTrack new (some (TrackContent.text s)) = TrackContent.jsonArr new)
    ∧ (∀ new : List String,
        contentProcessorTrack new (some TrackContent.jsonOther) = TrackContent.jsonArr new)
    ∧ (∀ new xs : List String,
        contentProcessorTrack new (some (TrackContent.jsonArr xs)) =
          TrackContent.jsonArr (xs ++ new)) := by
  refine ⟨?_, ?_, ?_, ?_, ?_⟩
  · intro α tree p c f
    simp [writeFileContent, lookupKey_fsWrite_self]
  · intro new; rfl
  · intro new s
    by_cases h : s = "" <;> simp [contentProcessorTrack, truthy, parseJson, h]
  · intro new; rfl
  · intro new xs; rfl

/-! ## C10: the deletion step and the literal branch main -/

theorem deleteOneBranch_snd (st : GitState α) (b : String) :
    (deleteOneBranch st b).2 =
      (checkoutMainForDelete st).2 ++
        [Ev.deleteRemote (stripRemote b), Ev.deleteLocal (stripRemote b)] := rfl

theorem checkoutMainForDelete_trace (st : GitState α) :
    (checkoutMainForDelete st).2 = [Ev.checkout "main"] ∨
    (checkoutMainForDelete st).2 =
      [Ev.checkout "main", Ev.checkoutOrphan "temp_placeholder_branch"] ∨
    (checkoutMainForDelete st).2 =
      [Ev.checkout "main", Ev.checkoutOrphan "temp_placeholder_branch", Ev.resetHard] := by
  unfold checkoutMainForDelete
  cases checkoutDWIM st "main" with
  | some s => simp
  | none => by_cases hp : hasKey "temp_placeholder_branch" st.localBranches <;> simp [hp]

theorem deleteOneBranch_trace_shape (st : GitState α) (b : String) :
    ∀ e ∈ (deleteOneBranch st b).2,
      e = Ev.checkout "main" ∨ e = Ev.checkoutOrphan "temp_placeholder_branch" ∨
      e = Ev.resetHard ∨ e = Ev.deleteRemote (stripRemote b) ∨
      e = Ev.deleteLocal (stripRemote b) := by
  intro e he
  rw [deleteOneBranch_snd] at he
  rcases List.mem_append.mp he with h | h
  · rcases checkoutMainForDelete_trace st with hc | hc | hc <;> rw [hc] at h <;>
      simp at h <;> tauto
  · simp at h; tauto

theorem deleteBranches_trace_shape (st : GitState α) (bs : List String) :
    ∀ e ∈ (deleteBranches st bs).2,
      e = Ev.checkout "main" ∨ e = Ev.checkoutOrphan "temp_placeholder_branch" ∨
      e = Ev.resetHard ∨ ∃ b ∈ bs,
        e = Ev.deleteRemote (stripRemote b) ∨ e = Ev.deleteLocal (stripRemote b) := by
  induction bs generalizing st with
  | nil => intro e he; simp [deleteBranches] at he
  | cons b rest ih =>
    intro e he
    simp only [deleteBranches, List.mem_append] at he
    rcases he with h | h
    · rcases deleteOneBranch_trace_shape st b e h with h1 | h1 | h1 | h1 | h1
      · exact Or.inl h1
      · exact Or.inr (Or.inl h1)
      · exact Or.inr (Or.inr (Or.inl h1))
      · exact Or.inr (Or.inr (Or.inr ⟨b, List.mem_cons_self b rest, Or.inl h1⟩))
      · exact Or.inr (Or.inr (Or.inr ⟨b, List.mem_cons_self b rest, Or.inr h1⟩))
    · rcases ih (deleteOneBranch st b).1 e h with h1 | h1 | h1 | ⟨b2, hb2, h1⟩
      · exact Or.inl h1
      · exact Or.inr (Or.inl h1)
      · exact Or.inr (Or.inr (Or.inl h1))
      · exact Or.inr (Or.inr (Or.inr ⟨b2, List.mem_cons_of_mem b hb2, h1⟩))

/-- C10: the deletion step issues checkout of the literal branch name
main first (the deleteBranches module receives no masterBranch, and the
only plain checkout it ever issues targets the literal name main, so
the masterBranch supplied to safeWriteToBranch is never consulted
here); when that checkout fails it falls back to creating the orphan
placeholder branch. -/
theorem c10_deleteBranches_literal_main :
    (∀ (α : Type) (st : GitState α) (b : String) (bs : List String),
        ((deleteBranches st (b :: bs)).2).head? = some (Ev.checkout "main"))
    ∧ (∀ (α : Type) (st : GitState α) (bs : List String),
        ∀ e ∈ (deleteBranches st bs).2,
          e = Ev.checkout "main" ∨ e = Ev.checkoutOrphan "temp_placeholder_branch" ∨
          e = Ev.resetHard ∨ ∃ b ∈ bs,
            e = Ev.deleteRemote (stripRemote b) ∨ e = Ev.deleteLocal (stripRemote b))
    ∧ (∀ (α : Type) (st : GitState α) (b : String) (bs : List String),
        lookupKey "main" st.localBranches = none →
        lookupKey "main" st.remoteBranches = none →
        lookupKey "temp_placeholder_branch" st.localBranches = none →
        ((deleteBranches st (b :: bs)).2).take 3 =
          [Ev.checkout "main", Ev.checkoutOrphan "temp_placeholder_branch", Ev.resetHard]) := by
  refine ⟨?_, ?_, ?_⟩
  · intro α st b bs
    have hsnd : (deleteBranches st (b :: bs)).2 =
        (deleteOneBranch st b).2 ++ (deleteBranches (deleteOneBranch st b).1 bs).2 := rfl
    rw [hsnd, deleteOneBranch_snd]
    rcases checkoutMainForDelete_trace st with hc | hc | hc <;> rw [hc] <;> rfl
  · intro α st bs
    exact deleteBranches_trace_shape st bs
  · intro α st b bs hmain hmainr hph
    have hsnd : (deleteBranches st (b :: bs)).2 =
        (deleteOneBranch st b).2 ++ (deleteBranches (deleteOneBranch st b).1 bs).2 := rfl
    have hc : (checkoutMainForDelete st).2 =
        [Ev.checkout "main", Ev.checkoutOrphan "temp_placeholder_branch", Ev.resetHard] := by
      unfold checkoutMainForDelete
      simp [checkoutDWIM, hmain, hmainr, hasKey, hph]
    rw [hsnd, deleteOneBranch_snd, hc]
    rfl

/-- Concrete state for the C10 witness: a repository whose master
branch is literally named master and which has no branch named main. -/
def exStC10 : GitState String :=
  ⟨[⟨0, [], []⟩], 1, [("master", 0)], [("master", 0)], "master", [], []⟩

theorem c10_witness :
    ((deleteBranches exStC10 ["b"]).2).take 3 =
      [Ev.checkout "main", Ev.checkoutOrphan "temp_placeholder_branch", Ev.resetHard] :=
  c10_deleteBranches_literal_main.2.2 String exStC10 "b" []
    (by decide) (by decide) (by decide)

/-! ## Checkout shape lemmas -/

theorem hasKey_cons (k a : String) (v : β) (l : List (String × β)) (h : hasKey k l) :
    hasKey k ((a, v) :: l) := by
  unfold hasKey lookupKey
  by_cases h2 : a = k
  · simp [h2]
  · simpa [h2] using h

theorem hasKey_cons_eraseKey (k a : String) (v : β) (l : List (String × β))
    (h : hasKey k l) (hne : k ≠ a) :
    hasKey k ((a, v) :: eraseKey a l) := by
  unfold hasKey lookupKey
  simp [Ne.symm hne, lookupKey_eraseKey_ne a k l hne]
  simpa [hasKey] using h

theorem checkoutDWIM_of_hasKey (st : GitState α) (name : String)
    (h : hasKey name st.localBranches) :
    ∃ s, checkoutDWIM st name = some s ∧ s.head = name ∧
      s.localBranches = st.localBranches ∧ s.remoteBranches = st.remoteBranches ∧
      s.dirs = st.dirs := by
  unfold hasKey at h
  cases hl : lookupKey name st.localBranches with
  | none => rw [hl] at h; simp at h
  | some cid =>
    refine ⟨{ st with head := name, worktree := st.treeOf cid }, ?_, rfl, rfl, rfl, rfl⟩
    unfold checkoutDWIM
    rw [hl]

theorem checkoutDWIM_shape (st : GitState α) (n : String) (s : GitState α)
    (h : checkoutDWIM st n = some s) :
    s.head = n ∧ s.remoteBranches = st.remoteBranches ∧ s.dirs = st.dirs ∧
    s.commits = st.commits ∧ s.nextId = st.nextId ∧
    (s.localBranches = st.localBranches ∨
      ∃ cid, s.localBranches = (n, cid) :: st.localBranches) := by
  unfold checkoutDWIM at h
  cases h1 : lookupKey n st.localBranches with
  | some cid =>
    rw [h1] at h
    cases h
    exact ⟨rfl, rfl, rfl, rfl, rfl, Or.inl rfl⟩
  | none =>
    rw [h1] at h
    cases h2 : lookupKey n st.remoteBranches with
    | some cid =>
      rw [h2] at h
      cases h
      exact ⟨rfl, rfl, rfl, rfl, rfl, Or.inr ⟨cid, rfl⟩⟩
    | none => rw [h2] at h; cases h

theorem checkoutNewFrom_shape (st : GitState α) (n start : String) (s : GitState α)
    (h : checkoutNewFrom st n start = some s) :
    s.head = n ∧ s.remoteBranches = st.remoteBranches ∧ s.dirs = st.dirs ∧
    s.commits = st.commits ∧ s.nextId = st.nextId ∧
    ∃ cid, s.localBranches = (n, cid) :: st.localBranches := by
  unfold checkoutNewFrom at h
  by_cases h1 : hasKey n st.localBranches
  · rw [if_pos h1] at h; cases h
  · rw [if_neg h1] at h
    cases h2 : lookupKey start st.localBranches with
    | some cid =>
      rw [h2] at h
      cases h
      exact ⟨rfl, rfl, rfl, rfl, rfl, cid, rfl⟩
    | none => rw [h2] at h; cases h

/-! ## C6: error containment of backupExistingBranch -/

theorem finallyOrphanCleanup_err (tmpB : String) (st : GitState α) (tr : List Ev) :
    (finallyOrphanCleanup tmpB st tr).err = none := by
  unfold finallyOrphanCleanup
  by_cases hp : hasKey "temp_placeholder_for_cleanup" st.localBranches <;> simp [hp]

theorem backupFinallyPhase_err (o : AttemptFaults) (tmpB mb : String) (st : GitState α)
    (tr : List Ev) :
    (backupFinallyPhase o tmpB mb st tr).err = none := by
  unfold backupFinallyPhase
  by_cases hf : o.backupFinallyCheckoutFail
  · simp [hf, finallyOrphanCleanup_err]
  · simp [hf]
    cases checkoutDWIM st mb with
    | some s => simp
    | none => simp [finallyOrphanCleanup_err]

theorem backupFinallyPhase_head (o : AttemptFaults) (tmpB mb : String) (st : GitState α)
    (tr : List Ev) (hf : o.backupFinallyCheckoutFail = false)
    (h : hasKey mb st.localBranches) :
    (backupFinallyPhase o tmpB mb st tr).st.head = mb := by
  obtain ⟨s, hs, hh, _, _, _⟩ := checkoutDWIM_of_hasKey st mb h
  unfold backupFinallyPhase
  rw [hf]
  simp [hs, hh]

theorem backupTryPhase_hasKey_local (o : AttemptFaults) (tmpB dn : String) (cid : Nat)
    (st : GitState α) (mb : String) (h : hasKey mb st.localBranches) :
    hasKey mb (backupTryPhase o tmpB dn cid st).1.localBranches := by
  unfold backupTryPhase
  by_cases h1 : (o.backupCheckoutFail || hasKey tmpB st.localBranches) = true
  · simp only [h1, if_true]; exact h
  · by_cases h2 : o.copyFail = true <;>
      simp only [h1, h2, if_true, if_false, Bool.false_eq_true] <;>
      exact hasKey_cons mb tmpB cid st.localBranches h

/-- C6 (amended): all errors of the backup checkout/copy phase are
caught inside backupExistingBranch, absence of the remote branch is a
plain no-backup return, and the finally block restores the working tree
to the master branch; however the initial fetch and the remote listing
run before the try block, so their failures do propagate to the caller
(where the retry loop of safeWriteToBranch catches them). -/
theorem c6_backup_error_containment :
    ∀ (α : Type) (o : AttemptFaults) (bn dn mb : String) (now : Nat) (st : GitState α),
      o.fetchFail = none → o.listRemoteFail = none →
      (backupExistingBranch o bn dn mb now st).err = none ∧
      (lookupKey bn st.remoteBranches ≠ none → o.backupFinallyCheckoutFail = false →
        hasKey mb st.localBranches →
        (backupExistingBranch o bn dn mb now st).st.head = mb) := by
  intro α o bn dn mb now st h1 h2
  unfold backupExistingBranch
  rw [h1, h2]
  cases hr : lookupKey bn st.remoteBranches with
  | none => exact ⟨rfl, fun hc => absurd rfl hc⟩
  | some cid =>
    refine ⟨backupFinallyPhase_err o _ mb _ _, fun _ hf hm => ?_⟩
    exact backupFinallyPhase_head o _ mb _ _ hf
      (backupTryPhase_hasKey_local o _ dn cid st mb hm)

/-- State for the C6 counterexample and witness. -/
def exStC6 : GitState String :=
  ⟨[], 0, [], [], "master", [], []⟩

/-- Fault schedule for the C6 counterexample: the fetch throws. -/
def exFaultC6 : AttemptFaults :=
  ⟨some "network down", none, false, false, false, none, none, none, none, none⟩

/-- C6 counterexample: a fetch failure propagates out of
backupExistingBranch, so the function does throw to its caller. -/
theorem c6_counterexample :
    (backupExistingBranch exFaultC6 "b" "d" "master" 0 exStC6).err = some "network down" := rfl

theorem c6_witness :
    (backupExistingBranch noFaults "b" "d" "master" 0 exStC6).err = none :=
  (c6_backup_error_containment String noFaults "b" "d" "master" 0 exStC6 rfl rfl).1

/-! ## C9: error handling of updateVersionBranch -/

theorem master_ne_versionBranch (dt : String) : "master" ≠ versionBranchName dt := by
  intro h
  have hlen : ("master" : String).length = ("version_" ++ dt).length :=
    congrArg String.length h
  rw [String.length_append] at hlen
  have h8 : ("version_" : String).length = 8 := rfl
  have h6 : ("master" : String).length = 6 := rfl
  rw [h8, h6] at hlen
  omega

theorem coVersionBranch_shape (st : GitState PContent) (vb : String) (s1 : GitState PContent)
    (hco : coVersionBranch st vb = some s1) :
    s1.head = vb ∧ s1.remoteBranches = st.remoteBranches ∧
    (s1.localBranches = st.localBranches ∨
      ∃ cid, s1.localBranches = (vb, cid) :: st.localBranches) := by
  unfold coVersionBranch at hco
  by_cases hv : hasKey vb st.remoteBranches
  · rw [if_pos hv] at hco
    obtain ⟨hh, hr, _, _, _, hl⟩ := checkoutDWIM_shape st _ s1 hco
    exact ⟨hh, hr, hl⟩
  · rw [if_neg hv] at hco
    obtain ⟨hh, hr, _, _, _, cid, hl⟩ := checkoutNewFrom_shape st _ _ s1 hco
    exact ⟨hh, hr, Or.inr ⟨cid, hl⟩⟩

theorem updVerCommitPush_shape (o : VerFaults) (dt : String) (s2 : GitState PContent)
    (hh : s2.head = versionBranchName dt) (hm : hasKey "master" s2.localBranches) :
    hasKey "master" (updVerCommitPush o dt s2).st.localBranches ∧
    (∀ b2, b2 ≠ versionBranchName dt →
      lookupKey b2 (updVerCommitPush o dt s2).st.remoteBranches =
        lookupKey b2 s2.remoteBranches) := by
  have hne : "master" ≠ versionBranchName dt := master_ne_versionBranch dt
  have hcons : hasKey "master" ((s2.head, s2.nextId) :: eraseKey s2.head s2.localBranches) := by
    rw [hh]
    exact hasKey_cons_eraseKey _ _ _ _ hm hne
  unfold updVerCommitPush
  cases o.commitFail with
  | some m => exact ⟨hm, fun _ _ => rfl⟩
  | none =>
    cases o.pushFail with
    | some m => exact ⟨hcons, fun _ _ => rfl⟩
    | none =>
      refine ⟨hcons, fun b2 hb2 => ?_⟩
      show lookupKey b2 ((versionBranchName dt, s2.nextId) ::
        eraseKey (versionBranchName dt) s2.remoteBranches) = _
      rw [lookupKey_cons_ne _ _ _ _ (Ne.symm hb2), lookupKey_eraseKey_ne _ _ _ hb2]

theorem updVerTry_shape (o : VerFaults) (dt nb nf : String) (st : GitState PContent)
    (h : hasKey "master" st.localBranches) :
    hasKey "master" (updVerTry o dt nb nf st).st.localBranches ∧
    (∀ b2, b2 ≠ versionBranchName dt →
      lookupKey b2 (updVerTry o dt nb nf st).st.remoteBranches =
        lookupKey b2 st.remoteBranches) := by
  unfold updVerTry
  cases o.listFail with
  | some m => exact ⟨h, fun _ _ => rfl⟩
  | none =>
  cases o.checkoutFail with
  | some m => exact ⟨h, fun _ _ => rfl⟩
  | none =>
  cases hco : coVersionBranch st (versionBranchName dt) with
  | none => exact ⟨h, fun _ _ => rfl⟩
  | some s1 =>
    obtain ⟨hh, hr, hl⟩ := coVersionBranch_shape st _ s1 hco
    have hml : hasKey "master" s1.localBranches := by
      rcases hl with hl2 | ⟨cid, hl2⟩
      · rw [hl2]; exact h
      · rw [hl2]; exact hasKey_cons _ _ _ _ h
    have hw : (updVerWritten nb nf dt s1).head = versionBranchName dt := hh
    have hwm : hasKey "master" (updVerWritten nb nf dt s1).localBranches := hml
    obtain ⟨ha, hb⟩ := updVerCommitPush_shape o dt (updVerWritten nb nf dt s1) hw hwm
    refine ⟨ha, fun b2 hb2 => ?_⟩
    rw [hb b2 hb2]
    show lookupKey b2 s1.remoteBranches = _
    rw [hr]

/-- C9 (amended): every failure inside the version-publish try block
(branch listing, checkout or creation of the version branch, commit,
push) is caught and logged inside updateVersionBranch and does not
propagate, and the already-pushed data blob is untouched (every remote
branch other than the version branch keeps its pointer); however the
finally block's cleanup checkout of the master branch is outside the
catch, and its failure does propagate to the caller. -/
theorem c9_updateVersionBranch_swallows_publish_failures :
    ∀ (o : VerFaults) (dt nb nf : String) (st : GitState PContent),
      o.finallyFail = none → hasKey "master" st.localBranches →
      (updateVersionBranch o dt nb nf st).err = none ∧
      (∀ b2, b2 ≠ versionBranchName dt →
        lookupKey b2 (updateVersionBranch o dt nb nf st).st.remoteBranches =
          lookupKey b2 st.remoteBranches) := by
  intro o dt nb nf st hfin hm
  obtain ⟨hml, hrem⟩ := updVerTry_shape o dt nb nf st hm
  obtain ⟨s, hs, hh, hl, hr, _⟩ :=
    checkoutDWIM_of_hasKey (updVerTry o dt nb nf st).st "master" hml
  constructor
  · simp [updateVersionBranch, hfin, hs]
  · intro b2 hb2
    simp only [updateVersionBranch, hfin, hs]
    rw [hr, hrem b2 hb2]

/-- State for the C9 counterexample: a clone in which no branch named
master exists (locally or remotely). -/
def exStC9 : GitState PContent :=
  ⟨[⟨0, [], []⟩], 1, [("b", 0)], [], "b", [], []⟩

/-- C9 counterexample: with no master branch to return to, the finally
block of updateVersionBranch throws, and that exception propagates to
the caller even though the publish failure itself was caught. -/
theorem c9_counterexample :
    (updateVersionBranch noVerFaults "train-delay-download" "nb" "nf" exStC9).err =
      some "error: pathspec master did not match any file known to git" := by decide

theorem c9_witness :
    (updateVersionBranch noVerFaults "dl" "nb" "nf"
        ⟨[⟨0, [], []⟩], 1, [("master", 0)], [], "master", [], []⟩).err = none :=
  (c9_updateVersionBranch_swallows_publish_failures noVerFaults "dl" "nb" "nf"
    ⟨[⟨0, [], []⟩], 1, [("master", 0)], [], "master", [], []⟩ rfl (by decide)).1

/-! ## C7: shape of the version pointer file -/

/-- Recognizer for commit events in a trace. -/
def isCommitEv : Ev → Bool
  | Ev.commitMade _ => true
  | _ => false

theorem updVerTry_commit_count (o : VerFaults) (dt nb nf : String) (st : GitState PContent) :
    ((updVerTry o dt nb nf st).tr.filter isCommitEv).length ≤ 1 := by
  unfold updVerTry
  cases o.listFail with
  | some m => simp [isCommitEv]
  | none =>
  cases o.checkoutFail with
  | some m => simp [isCommitEv]
  | none =>
  cases coVersionBranch st (versionBranchName dt) with
  | none => simp [isCommitEv]
  | some s1 =>
    unfold updVerCommitPush
    cases o.commitFail with
    | some m => simp [isCommitEv]
    | none =>
      cases o.pushFail with
      | some m => simp [isCommitEv]
      | none => simp [isCommitEv]

theorem updVerCommitPush_success_state (dt : String) (s2 : GitState PContent) :
    ∃ pr, updVerCommitPush noVerFaults dt s2 =
      ⟨none,
       ⟨⟨s2.nextId, pr, s2.worktree⟩ :: s2.commits, s2.nextId + 1,
        (s2.head, s2.nextId) :: eraseKey s2.head s2.localBranches,
        (versionBranchName dt, s2.nextId) :: eraseKey (versionBranchName dt) s2.remoteBranches,
        s2.head, s2.worktree, s2.dirs⟩,
       [Ev.listRemote (versionBranchName dt), Ev.checkout (versionBranchName dt),
        Ev.writeFile (versionFilePath dt), Ev.addAll, Ev.commitMade s2.nextId,
        Ev.push (versionBranchName dt)]⟩ :=
  ⟨_, rfl⟩

/-- C7 (amended): every version pointer object the code writes has
exactly the two fields _version (the new, timestamp-derived data branch
name) and _fileName (the blob path); no _dataUrl field exists anywhere;
and the pointer is still published atomically: one updateVersionBranch
call performs at most one commit, and on the successful path the new
tip of the version branch carries the pointer file with exactly this
two-field object. -/
theorem c7_version_pointer_two_fields :
    (∀ nb nf : String, (mkVersionData nb nf).map Prod.fst = ["_version", "_fileName"] ∧
        lookupKey "_dataUrl" (mkVersionData nb nf) = none)
    ∧ (∀ (o : VerFaults) (dt nb nf : String) (st : GitState PContent),
        ((updateVersionBranch o dt nb nf st).tr.filter isCommitEv).length ≤ 1)
    ∧ (∀ (dt nb nf : String) (st s1 : GitState PContent),
        hasKey "master" st.localBranches →
        coVersionBranch st (versionBranchName dt) = some s1 →
        ∃ cid,
          lookupKey (versionBranchName dt)
            (updateVersionBranch noVerFaults dt nb nf st).st.remoteBranches = some cid ∧
          lookupKey (versionFilePath dt)
            ((updateVersionBranch noVerFaults dt nb nf st).st.treeOf cid) =
            some (PContent.ver (mkVersionData nb nf))) := by
  refine ⟨?_, ?_, ?_⟩
  · intro nb nf
    constructor
    · rfl
    · simp [mkVersionData, lookupKey]
  · intro o dt nb nf st
    have h1 := updVerTry_commit_count o dt nb nf st
    simp only [updateVersionBranch]
    cases o.finallyFail with
    | some m => simpa [List.filter_append, isCommitEv] using h1
    | none =>
      cases checkoutDWIM (updVerTry o dt nb nf st).st "master" with
      | some s => simpa [List.filter_append, isCommitEv] using h1
      | none => simpa [List.filter_append, isCommitEv] using h1
  · intro dt nb nf st s1 hm hco
    -- the try block with no faults and a successful checkout
    have htr : updVerTry noVerFaults dt nb nf st =
        updVerCommitPush noVerFaults dt (updVerWritten nb nf dt s1) := by
      unfold updVerTry
      rw [hco]
      exact rfl
    obtain ⟨pr, hcp⟩ := updVerCommitPush_success_state dt (updVerWritten nb nf dt s1)
    refine ⟨(updVerWritten nb nf dt s1).nextId, ?_⟩
    have hres := updVerTry_shape noVerFaults dt nb nf st hm
    obtain ⟨s5, hs5, hh5, hl5, hr5, _⟩ :=
      checkoutDWIM_of_hasKey (updVerTry noVerFaults dt nb nf st).st "master" hres.1
    have hfin : updateVersionBranch noVerFaults dt nb nf st =
        ⟨none, s5, (updVerTry noVerFaults dt nb nf st).tr ++ [Ev.checkout "master"]⟩ := by
      simp only [updateVersionBranch, show noVerFaults.finallyFail = none from rfl]
      rw [hs5]
    have hcommits : s5.commits = (updVerTry noVerFaults dt nb nf st).st.commits := by
      have hsh := checkoutDWIM_shape (updVerTry noVerFaults dt nb nf st).st "master" s5 hs5
      exact hsh.2.2.2.1
    rw [hfin]
    constructor
    · show lookupKey (versionBranchName dt) s5.remoteBranches = _
      rw [hr5, htr, hcp]
      exact lookupKey_cons_self _ _ _
    · show lookupKey (versionFilePath dt) (s5.treeOf _) = _
      unfold GitState.treeOf
      rw [hcommits, htr, hcp]
      rw [List.find?_cons_of_pos _ (by simp)]
      show lookupKey (versionFilePath dt) (updVerWritten nb nf dt s1).worktree = _
      show lookupKey (versionFilePath dt)
        (fsWrite s1.worktree (versionFilePath dt) (PContent.ver (mkVersionData nb nf))) = _
      exact lookupKey_fsWrite_self _ _ _

/-- State for the C7 counterexample: a fresh clone with only a master
branch. -/
def exStC7 : GitState PContent :=
  ⟨[⟨0, [], []⟩], 1, [("master", 0)], [("master", 0)], "master", [], []⟩

/-- C7 counterexample: a successful concrete publish writes a version
pointer whose JSON object has exactly the fields _version and
_fileName; it has no _dataUrl field, refuting the three-field shape. -/
theorem c7_counterexample :
    (updateVersionBranch noVerFaults "dl" "b1" "f1" exStC7).err = none ∧
    lookupKey (versionBranchName "dl")
      (updateVersionBranch noVerFaults "dl" "b1" "f1" exStC7).st.remoteBranches = some 1 ∧
    lookupKey (versionFilePath "dl")
      ((updateVersionBranch noVerFaults "dl" "b1" "f1" exStC7).st.treeOf 1) =
      some (PContent.ver [("_version", "b1"), ("_fileName", "f1")]) ∧
    lookupKey "_dataUrl" [(("_version" : String), ("b1" : String)), ("_fileName", "f1")] = none := by
  decide

theorem c7_witness :
    ∃ cid,
      lookupKey (versionBranchName "dl")
        (updateVersionBranch noVerFaults "dl" "b1" "f1" exStC7).st.remoteBranches = some cid ∧
      lookupKey (versionFilePath "dl")
        ((updateVersionBranch noVerFaults "dl" "b1" "f1" exStC7).st.treeOf cid) =
        some (PContent.ver (mkVersionData "b1" "f1")) :=
  c7_version_pointer_two_fields.2.2 "dl" "b1" "f1" exStC7
    ⟨[⟨0, [], []⟩], 1, [(versionBranchName "dl", 0), ("master", 0)], [("master", 0)],
     versionBranchName "dl", [], []⟩
    (by decide) (by decide)

/-! ## C5: version branch is written only after the data publish -/

/-- C5: within one publish run the version branch is touched only
after the data commit and push succeed: whenever the data publish
throws (commit or push failure), the routine rethrows, no
version-branch push was issued, and the version branch pointer is
unchanged (still naming the previous blob); conversely, a
version-branch push event in the trace implies the data commit and
push both succeeded and the data push itself appears in the trace. -/
theorem c5_version_after_data :
    ∀ (o : PubFaults) (ov : VerFaults) (dt nb blob : String) (st : GitState PContent),
      ((o.commitFail ≠ none ∨ o.pushFail ≠ none) →
        (publishData o ov dt nb blob st).err ≠ none ∧
        lookupKey (versionBranchName dt) (publishData o ov dt nb blob st).st.remoteBranches =
          lookupKey (versionBranchName dt) st.remoteBranches ∧
        Ev.push (versionBranchName dt) ∉ (publishData o ov dt nb blob st).tr) ∧
      (Ev.push (versionBranchName dt) ∈ (publishData o ov dt nb blob st).tr →
        o.commitFail = none ∧ o.pushFail = none ∧
        Ev.push nb ∈ (publishData o ov dt nb blob st).tr) := by
  intro o ov dt nb blob st
  unfold publishData
  cases hco : checkoutNewFrom st nb "master" with
  | none =>
    refine ⟨fun _ => ⟨by simp, rfl, by simp⟩, fun hmem => ?_⟩
    simp at hmem
  | some s1 =>
    obtain ⟨hh1, hr1, _, _, _, cid, hl1⟩ := checkoutNewFrom_shape st nb "master" s1 hco
    cases hcf : o.commitFail with
    | some m =>
      refine ⟨fun _ => ⟨by simp, ?_, by simp⟩, fun hmem => by simp at hmem⟩
      show lookupKey _ s1.remoteBranches = _
      rw [hr1]
    | none =>
      cases hpf : o.pushFail with
      | some m =>
        refine ⟨fun _ => ⟨by simp, ?_, by simp⟩, fun hmem => by simp at hmem⟩
        show lookupKey _ s1.remoteBranches = _
        rw [hr1]
      | none =>
        refine ⟨fun hcontra => ?_, fun hmem => ⟨rfl, rfl, by simp⟩⟩
        rcases hcontra with h | h <;> exact absurd rfl h

/-- State for the C5 witness: the version branch currently points at
the previous blob commit 0. -/
def exStC5 : GitState PContent :=
  ⟨[⟨0, [], []⟩], 1, [("master", 0)], [(versionBranchName "dl", 0), ("master", 0)], "master",
   [], []⟩

theorem c5_witness :
    lookupKey (versionBranchName "dl")
      (publishData ⟨none, some "push failed"⟩ noVerFaults "dl" "nb" "blob"
        exStC5).st.remoteBranches =
      lookupKey (versionBranchName "dl") exStC5.remoteBranches :=
  ((c5_version_after_data ⟨none, some "push failed"⟩ noVerFaults "dl" "nb" "blob" exStC5).1
    (Or.inr (by simp))).2.1

/-! ## Unfolding lemmas for the retry loop -/

theorem swLoop_three_ok [DecidableEq α] (faults : Nat → AttemptFaults) (opts : SafeWriteOpts α)
    (a : Nat) (st : GitState α) (tr : List Ev)
    (h : (runAttempt (faults a) opts a st).err = none) :
    swLoop faults opts 3 a st tr =
      ⟨none, (runAttempt (faults a) opts a st).st, tr ++ (runAttempt (faults a) opts a st).tr, a⟩ := by
  rw [swLoop, h]

theorem swLoop_three_fail [DecidableEq α] (faults : Nat → AttemptFaults) (opts : SafeWriteOpts α)
    (a : Nat) (st : GitState α) (tr : List Ev) (m : String)
    (h : (runAttempt (faults a) opts a st).err = some m) :
    swLoop faults opts 3 a st tr =
      swLoop faults opts 2 (a + 1) (runAttempt (faults a) opts a st).st
        (tr ++ (runAttempt (faults a) opts a st).tr ++ [Ev.wait (2 ^ a)]) := by
  rw [swLoop, h]

theorem swLoop_two_ok [DecidableEq α] (faults : Nat → AttemptFaults) (opts : SafeWriteOpts α)
    (a : Nat) (st : GitState α) (tr : List Ev)
    (h : (runAttempt (faults a) opts a st).err = none) :
    swLoop faults opts 2 a st tr =
      ⟨none, (runAttempt (faults a) opts a st).st, tr ++ (runAttempt (faults a) opts a st).tr, a⟩ := by
  rw [swLoop, h]

theorem swLoop_two_fail [DecidableEq α] (faults : Nat → AttemptFaults) (opts : SafeWriteOpts α)
    (a : Nat) (st : GitState α) (tr : List Ev) (m : String)
    (h : (runAttempt (faults a) opts a st).err = some m) :
    swLoop faults opts 2 a st tr =
      swLoop faults opts 1 (a + 1) (runAttempt (faults a) opts a st).st
        (tr ++ (runAttempt (faults a) opts a st).tr ++ [Ev.wait (2 ^ a)]) := by
  rw [swLoop, h]

theorem swLoop_one_ok [DecidableEq α] (faults : Nat → AttemptFaults) (opts : SafeWriteOpts α)
    (a : Nat) (st : GitState α) (tr : List Ev)
    (h : (runAttempt (faults a) opts a st).err = none) :
    swLoop faults opts 1 a st tr =
      ⟨none, (runAttempt (faults a) opts a st).st, tr ++ (runAttempt (faults a) opts a st).tr, a⟩ := by
  rw [swLoop, h]

theorem swLoop_one_fail [DecidableEq α] (faults : Nat → AttemptFaults) (opts : SafeWriteOpts α)
    (a : Nat) (st : GitState α) (tr : List Ev) (m : String)
    (h : (runAttempt (faults a) opts a st).err = some m) :
    swLoop faults opts 1 a st tr =
      ⟨some (terminalMsg opts.branchName m), (runAttempt (faults a) opts a st).st,
       tr ++ (runAttempt (faults a) opts a st).tr, a⟩ := by
  rw [swLoop, h]

/-! ## C2: retry, backoff, terminal error -/

/-- Outcome of the first attempt of a safeWriteToBranch call. -/
def attempt1Res [DecidableEq α] (faults : Nat → AttemptFaults) (opts : SafeWriteOpts α)
    (st : GitState α) : StRes α :=
  runAttempt (faults 1) opts 1 st

/-- Outcome of the second attempt (run from the first attempt's state). -/
def attempt2Res [DecidableEq α] (faults : Nat → AttemptFaults) (opts : SafeWriteOpts α)
    (st : GitState α) : StRes α :=
  runAttempt (faults 2) opts 2 (attempt1Res faults opts st).st

/-- Outcome of the third attempt (run from the second attempt's state). -/
def attempt3Res [DecidableEq α] (faults : Nat → AttemptFaults) (opts : SafeWriteOpts α)
    (st : GitState α) : StRes α :=
  runAttempt (faults 3) opts 3 (attempt2Res faults opts st).st

/-- C2: complete characterization of the retry protocol, for every
fault schedule.  An exception in any step of an attempt is caught (the
call continues instead of propagating it); a successful attempt returns
at once with no error; after a failed attempt with attempts remaining
the protocol waits 2 ^ attempt seconds (the Ev.wait events) and retries
from the backup step (each retry re-enters runAttempt, whose first
stage is backupStep); after the third failed attempt it throws the
terminal error built from the last underlying error's message. -/
theorem c2_retry_semantics (α : Type) [DecidableEq α] (faults : Nat → AttemptFaults)
    (opts : SafeWriteOpts α) (st : GitState α) :
    ((attempt1Res faults opts st).err = none →
      safeWriteToBranch faults opts st =
        ⟨none, (attempt1Res faults opts st).st, (attempt1Res faults opts st).tr, 1⟩) ∧
    (∀ m1, (attempt1Res faults opts st).err = some m1 →
      (attempt2Res faults opts st).err = none →
      safeWriteToBranch faults opts st =
        ⟨none, (attempt2Res faults opts st).st,
         (attempt1Res faults opts st).tr ++ Ev.wait (2 ^ 1) :: (attempt2Res faults opts st).tr,
         2⟩) ∧
    (∀ m1 m2, (attempt1Res faults opts st).err = some m1 →
      (attempt2Res faults opts st).err = some m2 →
      (attempt3Res faults opts st).err = none →
      safeWriteToBranch faults opts st =
        ⟨none, (attempt3Res faults opts st).st,
         (attempt1Res faults opts st).tr ++ Ev.wait (2 ^ 1) ::
           ((attempt2Res faults opts st).tr ++ Ev.wait (2 ^ 2) ::
             (attempt3Res faults opts st).tr),
         3⟩) ∧
    (∀ m1 m2 m3, (attempt1Res faults opts st).err = some m1 →
      (attempt2Res faults opts st).err = some m2 →
      (attempt3Res faults opts st).err = some m3 →
      safeWriteToBranch faults opts st =
        ⟨some (terminalMsg opts.branchName m3), (attempt3Res faults opts st).st,
         (attempt1Res faults opts st).tr ++ Ev.wait (2 ^ 1) ::
           ((attempt2Res faults opts st).tr ++ Ev.wait (2 ^ 2) ::
             (attempt3Res faults opts st).tr),
         3⟩) := by
  have e0 : safeWriteToBranch faults opts st = swLoop faults opts 3 1 st [] := rfl
  refine ⟨?_, ?_, ?_, ?_⟩
  · intro h1
    simp only [attempt1Res] at h1 ⊢
    rw [e0, swLoop_three_ok faults opts 1 st [] h1]
    simp
  · intro m1 h1 h2
    simp only [attempt1Res, attempt2Res] at h1 h2 ⊢
    rw [e0, swLoop_three_fail faults opts 1 st [] m1 h1,
        swLoop_two_ok faults opts (1 + 1) _ _ h2]
    simp
  · intro m1 m2 h1 h2 h3
    simp only [attempt1Res, attempt2Res, attempt3Res] at h1 h2 h3 ⊢
    rw [e0, swLoop_three_fail faults opts 1 st [] m1 h1,
        swLoop_two_fail faults opts (1 + 1) _ _ m2 h2,
        swLoop_one_ok faults opts (1 + 1 + 1) _ _ h3]
    simp
  · intro m1 m2 m3 h1 h2 h3
    simp only [attempt1Res, attempt2Res, attempt3Res] at h1 h2 h3 ⊢
    rw [e0, swLoop_three_fail faults opts 1 st [] m1 h1,
        swLoop_two_fail faults opts (1 + 1) _ _ m2 h2,
        swLoop_one_fail faults opts (1 + 1 + 1) _ _ m3 h3]
    simp

/-- Options for the C2 witness: no backup, one file, the branch itself
deleted before the write. -/
def exOptsC2 : SafeWriteOpts String :=
  ⟨"main", "b", false, "f", "x", "msg", ["b"], none, none, 7⟩

/-- State for the C2 witness: a clone whose default branch is main. -/
def exStC2 : GitState String :=
  ⟨[⟨0, [], []⟩], 1, [("main", 0)], [("main", 0)], "main", [], []⟩

/-- Fault schedule for the C2 witness: the push of the first attempt
times out, the second attempt succeeds. -/
def exFaultsC2 : Nat → AttemptFaults := fun k =>
  if k = 1 then ⟨none, none, false, false, false, none, none, none, none, some "push timeout"⟩
  else noFaults

theorem c2_witness :
    (safeWriteToBranch exFaultsC2 exOptsC2 exStC2).err = none ∧
    (safeWriteToBranch exFaultsC2 exOptsC2 exStC2).attemptsUsed = 2 := by
  have h := (c2_retry_semantics String exFaultsC2 exOptsC2 exStC2).2.1 "push timeout"
    (by decide) (by decide)
  rw [h]
  exact ⟨rfl, rfl⟩

/-! ## Directory-effect lemmas for the cleanup guarantee -/

theorem eraseKey_cons_self (k : String) (v : β) (l : List (String × β)) :
    eraseKey k ((k, v) :: l) = eraseKey k l := by
  simp [eraseKey]

theorem eraseKey_idem (k : String) (l : List (String × β)) :
    eraseKey k (eraseKey k l) = eraseKey k l := by
  induction l with
  | nil => rfl
  | cons p t ih =>
    obtain ⟨a, b⟩ := p
    by_cases h : a = k <;> simp [eraseKey, h, ih]

theorem lookupKey_none_eraseKey (d k : String) (l : List (String × β))
    (h : lookupKey d l = none) : lookupKey d (eraseKey k l) = none := by
  by_cases hdk : d = k
  · subst hdk; exact lookupKey_eraseKey_self d l
  · rw [lookupKey_eraseKey_ne k d l hdk]; exact h

theorem checkoutDWIM_dirs (st : GitState α) (n : String) :
    ∀ s, checkoutDWIM st n = some s → s.dirs = st.dirs := fun s h =>
  (checkoutDWIM_shape st n s h).2.2.1

theorem checkoutMainForDelete_dirs (st : GitState α) :
    (checkoutMainForDelete st).1.dirs = st.dirs := by
  unfold checkoutMainForDelete
  cases hco : checkoutDWIM st "main" with
  | some s => exact checkoutDWIM_dirs st "main" s hco
  | none => by_cases hp : hasKey "temp_placeholder_branch" st.localBranches <;> simp [hp]

theorem deleteOneBranch_dirs (st : GitState α) (b : String) :
    (deleteOneBranch st b).1.dirs = st.dirs := by
  unfold deleteOneBranch
  dsimp only
  split <;> exact checkoutMainForDelete_dirs st

theorem deleteBranches_dirs (bs : List String) : ∀ st : GitState α,
    (deleteBranches st bs).1.dirs = st.dirs := by
  induction bs with
  | nil => intro st; rfl
  | cons b rest ih =>
    intro st
    show (deleteBranches (deleteOneBranch st b).1 rest).1.dirs = st.dirs
    rw [ih (deleteOneBranch st b).1, deleteOneBranch_dirs]

theorem deleteStep_dirs (bs : List String) : ∀ st : GitState α,
    ((deleteStep bs : GitState α → StRes α) st).st.dirs = st.dirs := fun st =>
  deleteBranches_dirs bs st

theorem createOrphanBranch_dirs (mb bn : String) : ∀ st : GitState α,
    (createOrphanBranch mb bn st).st.dirs = st.dirs := by
  intro st
  unfold createOrphanBranch
  cases hco : checkoutDWIM st mb with
  | some s =>
    have hd := checkoutDWIM_dirs st mb s hco
    by_cases h : hasKey bn s.localBranches <;> simp [h, hd]
  | none =>
    by_cases h : hasKey bn st.localBranches <;> simp [h]

theorem restoreStep_dirs (o : AttemptFaults) (opts : SafeWriteOpts α) (dn : String) :
    ∀ st : GitState α, (restoreStep o opts dn st).st.dirs = st.dirs := by
  intro st
  unfold restoreStep restoreBackup
  by_cases hb : opts.needBackup
  · simp only [hb, if_true]
    cases lookupKey dn st.dirs with
    | none => rfl
    | some items =>
      cases o.restoreFail with
      | some m => rfl
      | none => rfl
  · simp [hb]

theorem writeStep_dirs (o : AttemptFaults) (opts : SafeWriteOpts α) :
    ∀ st : GitState α, (writeStep o opts st).st.dirs = st.dirs := by
  intro st
  unfold writeStep
  cases o.writeFail with
  | some m => rfl
  | none => rfl

theorem hookStep_dirs (o : AttemptFaults) (opts : SafeWriteOpts α) :
    ∀ st : GitState α, (hookStep o opts st).st.dirs = st.dirs := by
  intro st
  unfold hookStep
  cases opts.beforeCommit with
  | none => rfl
  | some ws =>
    cases o.hookFail with
    | some m => rfl
    | none => rfl

theorem commitAndPush_dirs [DecidableEq α] (o : AttemptFaults) (bn : String) :
    ∀ st : GitState α, (commitAndPush o bn st).st.dirs = st.dirs := by
  intro st
  unfold commitAndPush
  dsimp only
  split
  · cases o.commitFail with
    | some m => rfl
    | none =>
      cases o.pushFail with
      | some m => rfl
      | none => rfl
  · rfl

theorem seqStep_dirs (r : StRes α) (f : GitState α → StRes α)
    (hf : ∀ s, (f s).st.dirs = s.dirs) : (seqStep r f).st.dirs = r.st.dirs := by
  obtain ⟨e, s, t⟩ := r
  cases e with
  | some m => rfl
  | none => exact hf s

theorem finallyOrphanCleanup_dirs (tmpB : String) (st : GitState α) (tr : List Ev) :
    (finallyOrphanCleanup tmpB st tr).st.dirs = st.dirs := by
  unfold finallyOrphanCleanup
  by_cases hp : hasKey "temp_placeholder_for_cleanup" st.localBranches <;> simp [hp]

theorem backupFinallyPhase_dirs (o : AttemptFaults) (tmpB mb : String) (st : GitState α)
    (tr : List Ev) : (backupFinallyPhase o tmpB mb st tr).st.dirs = st.dirs := by
  unfold backupFinallyPhase
  by_cases hf : o.backupFinallyCheckoutFail
  · simp [hf, finallyOrphanCleanup_dirs]
  · simp only [hf, Bool.false_eq_true, if_false]
    cases hco : checkoutDWIM st mb with
    | some s => simpa using checkoutDWIM_dirs st mb s hco
    | none => exact finallyOrphanCleanup_dirs tmpB st _

theorem backupTryPhase_dirs_or (o : AttemptFaults) (tmpB dn : String) (cid : Nat)
    (st : GitState α) :
    (backupTryPhase o tmpB dn cid st).1.dirs = st.dirs ∨
    ∃ x, (backupTryPhase o tmpB dn cid st).1.dirs = (dn, x) :: eraseKey dn st.dirs := by
  unfold backupTryPhase
  by_cases h1 : (o.backupCheckoutFail || hasKey tmpB st.localBranches) = true
  · rw [if_pos h1]
    exact Or.inl rfl
  · rw [if_neg h1]
    by_cases h2 : o.copyFail = true
    · rw [if_pos h2]
      exact Or.inr ⟨[], rfl⟩
    · rw [if_neg h2]
      exact Or.inr ⟨_, rfl⟩

theorem backupExistingBranch_dirs_or (o : AttemptFaults) (bn dn mb : String) (now : Nat)
    (st : GitState α) :
    (backupExistingBranch o bn dn mb now st).st.dirs = st.dirs ∨
    ∃ x, (backupExistingBranch o bn dn mb now st).st.dirs = (dn, x) :: eraseKey dn st.dirs := by
  unfold backupExistingBranch
  cases o.fetchFail with
  | some m => exact Or.inl rfl
  | none =>
  cases o.listRemoteFail with
  | some m => exact Or.inl rfl
  | none =>
  cases lookupKey bn st.remoteBranches with
  | none => exact Or.inl rfl
  | some cid =>
    have hfin := backupFinallyPhase_dirs o (tempBackupBranch bn now) mb
      (backupTryPhase o (tempBackupBranch bn now) dn cid st).1
    rcases backupTryPhase_dirs_or o (tempBackupBranch bn now) dn cid st with h | ⟨x, h⟩
    · exact Or.inl (by rw [hfin, h])
    · exact Or.inr ⟨x, by rw [hfin, h]⟩

theorem backupStep_dirs_or (o : AttemptFaults) (opts : SafeWriteOpts α) (dn : String)
    (st : GitState α) :
    (backupStep o opts dn st).st.dirs = st.dirs ∨
    ∃ x, (backupStep o opts dn st).st.dirs = (dn, x) :: eraseKey dn st.dirs := by
  unfold backupStep
  by_cases hb : opts.needBackup = true
  · rw [if_pos hb]
    exact backupExistingBranch_dirs_or o opts.branchName dn opts.masterBranch opts.now st
  · rw [if_neg hb]
    exact Or.inl rfl

theorem attemptBody_dirs_or [DecidableEq α] (o : AttemptFaults) (opts : SafeWriteOpts α)
    (dn : String) (st : GitState α) :
    (attemptBody o opts dn st).st.dirs = st.dirs ∨
    ∃ x, (attemptBody o opts dn st).st.dirs = (dn, x) :: eraseKey dn st.dirs := by
  have h1 : (attemptBody o opts dn st).st.dirs = (backupStep o opts dn st).st.dirs := by
    unfold attemptBody
    rw [seqStep_dirs _ _ (commitAndPush_dirs o opts.branchName),
        seqStep_dirs _ _ (hookStep_dirs o opts),
        seqStep_dirs _ _ (writeStep_dirs o opts),
        seqStep_dirs _ _ (restoreStep_dirs o opts dn),
        seqStep_dirs _ _ (createOrphanBranch_dirs opts.masterBranch opts.branchName),
        seqStep_dirs _ _ (deleteStep_dirs opts.branchesToDeleteBeforeWrite)]
  rw [h1]
  exact backupStep_dirs_or o opts dn st

theorem runAttempt_dirs [DecidableEq α] (o : AttemptFaults) (opts : SafeWriteOpts α)
    (k : Nat) (st : GitState α) :
    (runAttempt o opts k st).st.dirs = eraseKey (backupDirName opts k) st.dirs := by
  show eraseKey (backupDirName opts k) (attemptBody o opts (backupDirName opts k) st).st.dirs = _
  rcases attemptBody_dirs_or o opts (backupDirName opts k) st with h | ⟨x, h⟩
  · rw [h]
  · rw [h, eraseKey_cons_self, eraseKey_idem]

/-! ## C8: no scratch backup directory survives the call -/

/-- C8: after any safeWriteToBranch call, successful or not, none of
the per-attempt scratch backup directories of the attempts that ran
remains on disk (each attempt's finally block removes its directory
whether the attempt returned or threw), and every other directory is
untouched. -/
theorem c8_cleanup_guarantee (α : Type) [DecidableEq α] (faults : Nat → AttemptFaults)
    (opts : SafeWriteOpts α) (st : GitState α) :
    (∀ k, 1 ≤ k → k ≤ (safeWriteToBranch faults opts st).attemptsUsed →
      lookupKey (backupDirName opts k) (safeWriteToBranch faults opts st).st.dirs = none) ∧
    (∀ d, (∀ k, 1 ≤ k → k ≤ (safeWriteToBranch faults opts st).attemptsUsed →
        d ≠ backupDirName opts k) →
      lookupKey d (safeWriteToBranch faults opts st).st.dirs = lookupKey d st.dirs) := by
  have e0 : safeWriteToBranch faults opts st = swLoop faults opts 3 1 st [] := rfl
  have hd1 := runAttempt_dirs (faults 1) opts 1 st
  cases h1 : (runAttempt (faults 1) opts 1 st).err with
  | none =>
    rw [e0, swLoop_three_ok faults opts 1 st [] h1]
    dsimp only
    constructor
    · intro k hk1 hk2
      have hk : k = 1 := by omega
      subst hk
      rw [hd1]
      exact lookupKey_eraseKey_self _ _
    · intro d hd
      rw [hd1]
      exact lookupKey_eraseKey_ne _ _ _ (hd 1 (by omega) (by omega))
  | some m1 =>
    have hd2 := runAttempt_dirs (faults (1 + 1)) opts (1 + 1) (runAttempt (faults 1) opts 1 st).st
    cases h2 : (runAttempt (faults (1 + 1)) opts (1 + 1) (runAttempt (faults 1) opts 1 st).st).err with
    | none =>
      rw [e0, swLoop_three_fail faults opts 1 st [] m1 h1,
          swLoop_two_ok faults opts (1 + 1) _ _ h2]
      dsimp only
      constructor
      · intro k hk1 hk2
        rw [hd2, hd1]
        interval_cases k
        · exact lookupKey_none_eraseKey _ _ _ (lookupKey_eraseKey_self _ _)
        · exact lookupKey_eraseKey_self _ _
      · intro d hd
        rw [hd2, hd1,
            lookupKey_eraseKey_ne _ _ _ (hd 2 (by omega) (by omega)),
            lookupKey_eraseKey_ne _ _ _ (hd 1 (by omega) (by omega))]
    | some m2 =>
      have hd3 := runAttempt_dirs (faults (1 + 1 + 1)) opts (1 + 1 + 1)
        (runAttempt (faults (1 + 1)) opts (1 + 1) (runAttempt (faults 1) opts 1 st).st).st
      cases h3 : (runAttempt (faults (1 + 1 + 1)) opts (1 + 1 + 1)
          (runAttempt (faults (1 + 1)) opts (1 + 1) (runAttempt (faults 1) opts 1 st).st).st).err with
      | none =>
        rw [e0, swLoop_three_fail faults opts 1 st [] m1 h1,
            swLoop_two_fail faults opts (1 + 1) _ _ m2 h2,
            swLoop_one_ok faults opts (1 + 1 + 1) _ _ h3]
        dsimp only
        constructor
        · intro k hk1 hk2
          rw [hd3, hd2, hd1]
          interval_cases k
          · exact lookupKey_none_eraseKey _ _ _
              (lookupKey_none_eraseKey _ _ _ (lookupKey_eraseKey_self _ _))
          · exact lookupKey_none_eraseKey _ _ _ (lookupKey_eraseKey_self _ _)
          · exact lookupKey_eraseKey_self _ _
        · intro d hd
          rw [hd3, hd2, hd1,
              lookupKey_eraseKey_ne _ _ _ (hd 3 (by omega) (by omega)),
              lookupKey_eraseKey_ne _ _ _ (hd 2 (by omega) (by omega)),
              lookupKey_eraseKey_ne _ _ _ (hd 1 (by omega) (by omega))]
      | some m3 =>
        rw [e0, swLoop_three_fail faults opts 1 st [] m1 h1,
            swLoop_two_fail faults opts (1 + 1) _ _ m2 h2,
            swLoop_one_fail faults opts (1 + 1 + 1) _ _ m3 h3]
        dsimp only
        constructor
        · intro k hk1 hk2
          rw [hd3, hd2, hd1]
          interval_cases k
          · exact lookupKey_none_eraseKey _ _ _
              (lookupKey_none_eraseKey _ _ _ (lookupKey_eraseKey_self _ _))
          · exact lookupKey_none_eraseKey _ _ _ (lookupKey_eraseKey_self _ _)
          · exact lookupKey_eraseKey_self _ _
        · intro d hd
          rw [hd3, hd2, hd1,
              lookupKey_eraseKey_ne _ _ _ (hd 3 (by omega) (by omega)),
              lookupKey_eraseKey_ne _ _ _ (hd 2 (by omega) (by omega)),
              lookupKey_eraseKey_ne _ _ _ (hd 1 (by omega) (by omega))]

/-! ## C1: orphan isolation groundwork -/

/-- Effect of the beforeCommit hook on the working tree. -/
def hookApply (opts : SafeWriteOpts α) (t : List (String × α)) : List (String × α) :=
  match opts.beforeCommit with
  | none => t
  | some ws => applyWrites t ws

/-- The tree one write cycle produces on top of a restored base: the
restored backup files, then the target file written through
writeFileContent, then the hook's writes. -/
def cycleTree (opts : SafeWriteOpts α) (base : List (String × α)) : List (String × α) :=
  hookApply opts
    (writeFileContent (applyWrites [] base) opts.filePathInRepo opts.fileContent
      opts.contentProcessor)

/-- What the backup phase of one attempt captures in its scratch
directory: the remote tip tree when the branch exists and the throwaway
checkout and the copy both succeed, and nothing otherwise. -/
def backupSnapshot (o : AttemptFaults) (branchName : String) (now : Nat) (st : GitState α) :
    List (String × α) :=
  match lookupKey branchName st.remoteBranches with
  | none => []
  | some cid =>
    if o.backupCheckoutFail || hasKey (tempBackupBranch branchName now) st.localBranches then []
    else if o.copyFail then [] else st.treeOf cid

theorem seqStep_err_none (r : StRes α) (f : GitState α → StRes α)
    (h : (seqStep r f).err = none) :
    r.err = none ∧ (f r.st).err = none ∧ (seqStep r f).st = (f r.st).st := by
  obtain ⟨e, s, t⟩ := r
  cases e with
  | some m => exact absurd h (by simp [seqStep])
  | none => exact ⟨rfl, h, rfl⟩

theorem fsWrite_ne_nil (t : List (String × α)) (p : String) (v : α) : fsWrite t p v ≠ [] := by
  simp [fsWrite]

theorem applyWrites_ne_nil (ws : List (String × α)) : ∀ t : List (String × α),
    t ≠ [] → applyWrites t ws ≠ [] := by
  induction ws with
  | nil => intro t h; exact h
  | cons w rest ih =>
    intro t h
    exact ih (fsWrite t w.1 w.2) (fsWrite_ne_nil t w.1 w.2)

theorem writeFileContent_ne_nil (t : List (String × α)) (p : String) (c : α)
    (proc : Option (Option α → α)) : writeFileContent t p c proc ≠ [] := by
  unfold writeFileContent
  exact fsWrite_ne_nil _ _ _

theorem hookApply_ne_nil (opts : SafeWriteOpts α) (t : List (String × α)) (h : t ≠ []) :
    hookApply opts t ≠ [] := by
  unfold hookApply
  cases opts.beforeCommit with
  | none => exact h
  | some ws => exact applyWrites_ne_nil ws t h

theorem cycleTree_ne_nil (opts : SafeWriteOpts α) (base : List (String × α)) :
    cycleTree opts base ≠ [] :=
  hookApply_ne_nil opts _ (writeFileContent_ne_nil _ _ _ _)

theorem createOrphanBranch_ok (mb bn : String) (st : GitState α)
    (h : (createOrphanBranch mb bn st).err = none) :
    (createOrphanBranch mb bn st).st.head = bn ∧
    (createOrphanBranch mb bn st).st.worktree = [] ∧
    hasKey bn (createOrphanBranch mb bn st).st.localBranches = false ∧
    (createOrphanBranch mb bn st).st.dirs = st.dirs := by
  unfold createOrphanBranch at h ⊢
  cases hco : checkoutDWIM st mb with
  | some s =>
    simp only [hco] at h ⊢
    by_cases hk : hasKey bn s.localBranches = true
    · rw [if_pos hk] at h
      exact absurd h (by simp)
    · rw [if_neg hk] at h ⊢
      exact ⟨rfl, rfl, by simpa using hk, checkoutDWIM_dirs st mb s hco⟩
  | none =>
    simp only [hco] at h ⊢
    by_cases hk : hasKey bn st.localBranches = true
    · rw [if_pos hk] at h
      exact absurd h (by simp)
    · rw [if_neg hk] at h ⊢
      exact ⟨rfl, rfl, by simpa using hk, rfl⟩

theorem restoreStep_ok (o : AttemptFaults) (opts : SafeWriteOpts α) (dn : String)
    (st : GitState α) (h : (restoreStep o opts dn st).err = none) :
    (restoreStep o opts dn st).st.head = st.head ∧
    (restoreStep o opts dn st).st.localBranches = st.localBranches ∧
    (restoreStep o opts dn st).st.worktree =
      applyWrites st.worktree
        (if opts.needBackup = true then (lookupKey dn st.dirs).getD [] else []) := by
  unfold restoreStep restoreBackup at h ⊢
  by_cases hb : opts.needBackup = true
  · rw [if_pos hb] at h ⊢
    rw [if_pos hb]
    cases hd : lookupKey dn st.dirs with
    | none => exact ⟨rfl, rfl, rfl⟩
    | some items =>
      cases hr : o.restoreFail with
      | some m => exact absurd h (by simp [hd, hr])
      | none => exact ⟨rfl, rfl, rfl⟩
  · rw [if_neg hb] at h ⊢
    rw [if_neg hb]
    exact ⟨rfl, rfl, rfl⟩

theorem writeStep_ok (o : AttemptFaults) (opts : SafeWriteOpts α) (st : GitState α)
    (h : (writeStep o opts st).err = none) :
    (writeStep o opts st).st.head = st.head ∧
    (writeStep o opts st).st.localBranches = st.localBranches ∧
    (writeStep o opts st).st.worktree =
      writeFileContent st.worktree opts.filePathInRepo opts.fileContent opts.contentProcessor := by
  unfold writeStep at h ⊢
  cases hw : o.writeFail with
  | some m => exact absurd h (by simp [hw])
  | none => exact ⟨rfl, rfl, rfl⟩

theorem hookStep_ok (o : AttemptFaults) (opts : SafeWriteOpts α) (st : GitState α)
    (h : (hookStep o opts st).err = none) :
    (hookStep o opts st).st.head = st.head ∧
    (hookStep o opts st).st.localBranches = st.localBranches ∧
    (hookStep o opts st).st.worktree = hookApply opts st.worktree := by
  unfold hookStep at h ⊢
  unfold hookApply
  cases hbc : opts.beforeCommit with
  | none => exact ⟨rfl, rfl, rfl⟩
  | some ws =>
    cases hh : o.hookFail with
    | some m => exact absurd h (by simp [hbc, hh])
    | none => exact ⟨rfl, rfl, rfl⟩

theorem commitAndPush_ok_unborn [DecidableEq α] (o : AttemptFaults) (bn : String)
    (st : GitState α) (hh : st.head = bn) (hb : hasKey bn st.localBranches = false)
    (hw : st.worktree ≠ []) (h : (commitAndPush o bn st).err = none) :
    (commitAndPush o bn st).st.remoteBranches =
      (bn, st.nextId) :: eraseKey bn st.remoteBranches ∧
    (commitAndPush o bn st).st.commits =
      GitCommit.mk st.nextId [] st.worktree :: st.commits := by
  have hlk : lookupKey st.head st.localBranches = none := by
    rw [hh]
    unfold hasKey at hb
    cases hl : lookupKey bn st.localBranches with
    | none => rfl
    | some cid => rw [hl] at hb; simp at hb
  unfold commitAndPush at h ⊢
  rw [hlk] at h ⊢
  have hch : (st.worktree != ([] : List (String × α))) = true := by
    simpa using hw
  rw [hch] at h ⊢
  rw [if_pos rfl] at h ⊢
  cases hc : o.commitFail with
  | some m => exact absurd h (by simp [hc])
  | none =>
    cases hp : o.pushFail with
    | some m => exact absurd h (by simp [hc, hp])
    | none => exact ⟨rfl, rfl⟩

theorem backupStep_dir_content (o : AttemptFaults) (opts : SafeWriteOpts α) (dn : String)
    (st : GitState α) (hfresh : lookupKey dn st.dirs = none)
    (hb : opts.needBackup = true) (h : (backupStep o opts dn st).err = none) :
    (lookupKey dn (backupStep o opts dn st).st.dirs).getD [] =
      backupSnapshot o opts.branchName opts.now st := by
  unfold backupStep at h ⊢
  rw [if_pos hb] at h ⊢
  unfold backupExistingBranch at h ⊢
  unfold backupSnapshot
  cases hf : o.fetchFail with
  | some m => exact absurd h (by simp [hb, hf])
  | none =>
  cases hl : o.listRemoteFail with
  | some m => exact absurd h (by simp [hb, hf, hl])
  | none =>
  cases hr : lookupKey opts.branchName st.remoteBranches with
  | none =>
    dsimp only
    simp [hfresh]
  | some cid =>
    dsimp only
    rw [backupFinallyPhase_dirs]
    unfold backupTryPhase
    by_cases h1 : (o.backupCheckoutFail ||
        hasKey (tempBackupBranch opts.branchName opts.now) st.localBranches) = true
    · rw [if_pos h1, if_pos h1]
      simp [hfresh]
    · rw [if_neg h1, if_neg h1]
      by_cases h2 : o.copyFail = true
      · rw [if_pos h2, if_pos h2]
        simp [lookupKey_cons_self]
      · rw [if_neg h2, if_neg h2]
        simp [lookupKey_cons_self]

/-- Stages of one attempt, named for the proofs: after backup and
deletion. -/
def stage1 [DecidableEq α] (o : AttemptFaults) (opts : SafeWriteOpts α) (dn : String)
    (st : GitState α) : StRes α :=
  seqStep (backupStep o opts dn st) (deleteStep opts.branchesToDeleteBeforeWrite)

/-- After orphan creation. -/
def stage2 [DecidableEq α] (o : AttemptFaults) (opts : SafeWriteOpts α) (dn : String)
    (st : GitState α) : StRes α :=
  seqStep (stage1 o opts dn st) (createOrphanBranch opts.masterBranch opts.branchName)

/-- After restore. -/
def stage3 [DecidableEq α] (o : AttemptFaults) (opts : SafeWriteOpts α) (dn : String)
    (st : GitState α) : StRes α :=
  seqStep (stage2 o opts dn st) (restoreStep o opts dn)

/-- After the file write. -/
def stage4 [DecidableEq α] (o : AttemptFaults) (opts : SafeWriteOpts α) (dn : String)
    (st : GitState α) : StRes α :=
  seqStep (stage3 o opts dn st) (writeStep o opts)

/-- After the beforeCommit hook. -/
def stage5 [DecidableEq α] (o : AttemptFaults) (opts : SafeWriteOpts α) (dn : String)
    (st : GitState α) : StRes α :=
  seqStep (stage4 o opts dn st) (hookStep o opts)

/-- After commit and push; equal to attemptBody. -/
def stage6 [DecidableEq α] (o : AttemptFaults) (opts : SafeWriteOpts α) (dn : String)
    (st : GitState α) : StRes α :=
  seqStep (stage5 o opts dn st) (commitAndPush o opts.branchName)

theorem attemptBody_eq_stage6 [DecidableEq α] (o : AttemptFaults) (opts : SafeWriteOpts α)
    (dn : String) (st : GitState α) : attemptBody o opts dn st = stage6 o opts dn st := rfl

/-- Inversion of one successful attempt: the new remote tip of the
target branch is a freshly created commit with no parents whose tree is
exactly the write cycle's tree over the per-attempt backup snapshot
(empty when needBackup is false). -/
theorem runAttempt_ok_tip [DecidableEq α] (o : AttemptFaults) (opts : SafeWriteOpts α)
    (k : Nat) (st : GitState α)
    (hfresh : lookupKey (backupDirName opts k) st.dirs = none)
    (h : (runAttempt o opts k st).err = none) :
    ∃ c : GitCommit α,
      lookupKey opts.branchName (runAttempt o opts k st).st.remoteBranches = some c.id ∧
      c ∈ (runAttempt o opts k st).st.commits ∧
      (runAttempt o opts k st).st.treeOf c.id = c.tree ∧
      c.parents = [] ∧
      c.tree = cycleTree opts
        (if opts.needBackup = true then backupSnapshot o opts.branchName opts.now st else []) := by
  have hab : (stage6 o opts (backupDirName opts k) st).err = none := h
  obtain ⟨hq5, hC, hst6⟩ :=
    seqStep_err_none (stage5 o opts (backupDirName opts k) st)
      (commitAndPush o opts.branchName) hab
  obtain ⟨hq4, hH, hst5⟩ :=
    seqStep_err_none (stage4 o opts (backupDirName opts k) st) (hookStep o opts) hq5
  obtain ⟨hq3, hW, hst4⟩ :=
    seqStep_err_none (stage3 o opts (backupDirName opts k) st) (writeStep o opts) hq4
  obtain ⟨hq2, hR, hst3⟩ :=
    seqStep_err_none (stage2 o opts (backupDirName opts k) st)
      (restoreStep o opts (backupDirName opts k)) hq3
  obtain ⟨hq1, hO, hst2⟩ :=
    seqStep_err_none (stage1 o opts (backupDirName opts k) st)
      (createOrphanBranch opts.masterBranch opts.branchName) hq2
  obtain ⟨hB, hD, hst1⟩ :=
    seqStep_err_none (backupStep o opts (backupDirName opts k) st)
      (deleteStep opts.branchesToDeleteBeforeWrite) hq1
  have Hst6 : (stage6 o opts (backupDirName opts k) st).st =
      (commitAndPush o opts.branchName (stage5 o opts (backupDirName opts k) st).st).st := hst6
  have Hst5 : (stage5 o opts (backupDirName opts k) st).st =
      (hookStep o opts (stage4 o opts (backupDirName opts k) st).st).st := hst5
  have Hst4 : (stage4 o opts (backupDirName opts k) st).st =
      (writeStep o opts (stage3 o opts (backupDirName opts k) st).st).st := hst4
  have Hst3 : (stage3 o opts (backupDirName opts k) st).st =
      (restoreStep o opts (backupDirName opts k)
        (stage2 o opts (backupDirName opts k) st).st).st := hst3
  have Hst2 : (stage2 o opts (backupDirName opts k) st).st =
      (createOrphanBranch opts.masterBranch opts.branchName
        (stage1 o opts (backupDirName opts k) st).st).st := hst2
  have Hst1 : (stage1 o opts (backupDirName opts k) st).st =
      (deleteStep opts.branchesToDeleteBeforeWrite
        (backupStep o opts (backupDirName opts k) st).st).st := hst1
  obtain ⟨hOh, hOw, hOk, hOd⟩ :=
    createOrphanBranch_ok opts.masterBranch opts.branchName
      (stage1 o opts (backupDirName opts k) st).st hO
  obtain ⟨hRh, hRl, hRw⟩ :=
    restoreStep_ok o opts (backupDirName opts k)
      (stage2 o opts (backupDirName opts k) st).st hR
  obtain ⟨hWh, hWl, hWw⟩ :=
    writeStep_ok o opts (stage3 o opts (backupDirName opts k) st).st hW
  obtain ⟨hHh, hHl, hHw⟩ :=
    hookStep_ok o opts (stage4 o opts (backupDirName opts k) st).st hH
  have hDdirs :
      (deleteStep opts.branchesToDeleteBeforeWrite
        (backupStep o opts (backupDirName opts k) st).st).st.dirs =
      (backupStep o opts (backupDirName opts k) st).st.dirs :=
    deleteStep_dirs _ _
  have hbase : (if opts.needBackup = true then
      (lookupKey (backupDirName opts k)
        (backupStep o opts (backupDirName opts k) st).st.dirs).getD []
    else []) =
      (if opts.needBackup = true then backupSnapshot o opts.branchName opts.now st else []) := by
    by_cases hb : opts.needBackup = true
    · rw [if_pos hb, if_pos hb, backupStep_dir_content o opts _ st hfresh hb hB]
    · rw [if_neg hb, if_neg hb]
  have hhead : (stage5 o opts (backupDirName opts k) st).st.head = opts.branchName := by
    rw [Hst5, hHh, Hst4, hWh, Hst3, hRh, Hst2, hOh]
  have hlocal : hasKey opts.branchName
      (stage5 o opts (backupDirName opts k) st).st.localBranches = false := by
    rw [Hst5, hHl, Hst4, hWl, Hst3, hRl, Hst2]
    exact hOk
  have hwt : (stage5 o opts (backupDirName opts k) st).st.worktree =
      cycleTree opts
        (if opts.needBackup = true then backupSnapshot o opts.branchName opts.now st else []) := by
    rw [Hst5, hHw, Hst4, hWw, Hst3, hRw, Hst2, hOw, hOd, Hst1, hDdirs]
    unfold cycleTree
    rw [← hbase]
  obtain ⟨hcr, hcc⟩ :=
    commitAndPush_ok_unborn o opts.branchName (stage5 o opts (backupDirName opts k) st).st
      hhead hlocal (by rw [hwt]; exact cycleTree_ne_nil opts _) hC
  have hrem : (runAttempt o opts k st).st.remoteBranches =
      (opts.branchName, (stage5 o opts (backupDirName opts k) st).st.nextId) ::
        eraseKey opts.branchName
          (stage5 o opts (backupDirName opts k) st).st.remoteBranches := by
    show (stage6 o opts (backupDirName opts k) st).st.remoteBranches = _
    rw [Hst6, hcr]
  have hcm : (runAttempt o opts k st).st.commits =
      GitCommit.mk (stage5 o opts (backupDirName opts k) st).st.nextId []
        (stage5 o opts (backupDirName opts k) st).st.worktree ::
        (stage5 o opts (backupDirName opts k) st).st.commits := by
    show (stage6 o opts (backupDirName opts k) st).st.commits = _
    rw [Hst6, hcc]
  refine ⟨GitCommit.mk (stage5 o opts (backupDirName opts k) st).st.nextId []
    (stage5 o opts (backupDirName opts k) st).st.worktree, ?_, ?_, ?_, rfl, hwt⟩
  · rw [hrem]
    exact lookupKey_cons_self _ _ _
  · rw [hcm]
    exact List.mem_cons_self _ _
  · unfold GitState.treeOf
    rw [hcm]
    rw [List.find?_cons_of_pos _ (by simp)]

/-- C1: orphan isolation.  Every safeWriteToBranch call that returns
successfully leaves the target branch's remote tip at a commit with no
parent commits, created by the successful attempt k from its own
pre-attempt state, whose tree contains only the files restored from
that attempt's backup snapshot (when needBackup is true; nothing
otherwise) plus the file written in this cycle and the files the
beforeCommit hook wrote.  The freshness hypothesis says the per-attempt
scratch directory names are not already taken on disk, which the
cleanup guarantee maintains. -/
theorem c1_orphan_isolation (α : Type) [DecidableEq α] (faults : Nat → AttemptFaults)
    (opts : SafeWriteOpts α) (st : GitState α)
    (hfresh : ∀ k, lookupKey (backupDirName opts k) st.dirs = none)
    (h : (safeWriteToBranch faults opts st).err = none) :
    ∃ (k : Nat) (stPre : GitState α) (c : GitCommit α),
      1 ≤ k ∧ k ≤ 3 ∧
      (runAttempt (faults k) opts k stPre).err = none ∧
      (safeWriteToBranch faults opts st).st = (runAttempt (faults k) opts k stPre).st ∧
      lookupKey opts.branchName (safeWriteToBranch faults opts st).st.remoteBranches =
        some c.id ∧
      c ∈ (safeWriteToBranch faults opts st).st.commits ∧
      (safeWriteToBranch faults opts st).st.treeOf c.id = c.tree ∧
      c.parents = [] ∧
      c.tree = cycleTree opts
        (if opts.needBackup = true then
          backupSnapshot (faults k) opts.branchName opts.now stPre
        else []) := by
  have e0 : safeWriteToBranch faults opts st = swLoop faults opts 3 1 st [] := rfl
  cases h1 : (runAttempt (faults 1) opts 1 st).err with
  | none =>
    obtain ⟨c, hc1, hc2, hc3, hc4, hc5⟩ := runAttempt_ok_tip (faults 1) opts 1 st (hfresh 1) h1
    refine ⟨1, st, c, by omega, by omega, h1, ?_, ?_, ?_, ?_, hc4, hc5⟩ <;>
      rw [e0, swLoop_three_ok faults opts 1 st [] h1]
    · exact hc1
    · exact hc2
    · exact hc3
  | some m1 =>
    have hf2 : lookupKey (backupDirName opts 2) (runAttempt (faults 1) opts 1 st).st.dirs
        = none := by
      rw [runAttempt_dirs]
      exact lookupKey_none_eraseKey _ _ _ (hfresh 2)
    cases h2 : (runAttempt (faults (1 + 1)) opts (1 + 1)
        (runAttempt (faults 1) opts 1 st).st).err with
    | none =>
      obtain ⟨c, hc1, hc2, hc3, hc4, hc5⟩ :=
        runAttempt_ok_tip (faults (1 + 1)) opts (1 + 1) (runAttempt (faults 1) opts 1 st).st
          hf2 h2
      refine ⟨1 + 1, (runAttempt (faults 1) opts 1 st).st, c, by omega, by omega, h2,
        ?_, ?_, ?_, ?_, hc4, hc5⟩ <;>
        rw [e0, swLoop_three_fail faults opts 1 st [] m1 h1,
            swLoop_two_ok faults opts (1 + 1) _ _ h2]
      · exact hc1
      · exact hc2
      · exact hc3
    | some m2 =>
      have hf3 : lookupKey (backupDirName opts 3)
          (runAttempt (faults (1 + 1)) opts (1 + 1)
            (runAttempt (faults 1) opts 1 st).st).st.dirs = none := by
        rw [runAttempt_dirs, runAttempt_dirs]
        exact lookupKey_none_eraseKey _ _ _ (lookupKey_none_eraseKey _ _ _ (hfresh 3))
      cases h3 : (runAttempt (faults (1 + 1 + 1)) opts (1 + 1 + 1)
          (runAttempt (faults (1 + 1)) opts (1 + 1)
            (runAttempt (faults 1) opts 1 st).st).st).err with
      | none =>
        obtain ⟨c, hc1, hc2, hc3, hc4, hc5⟩ :=
          runAttempt_ok_tip (faults (1 + 1 + 1)) opts (1 + 1 + 1)
            (runAttempt (faults (1 + 1)) opts (1 + 1)
              (runAttempt (faults 1) opts 1 st).st).st hf3 h3
        refine ⟨1 + 1 + 1,
          (runAttempt (faults (1 + 1)) opts (1 + 1)
            (runAttempt (faults 1) opts 1 st).st).st, c, by omega, by omega, h3,
          ?_, ?_, ?_, ?_, hc4, hc5⟩ <;>
          rw [e0, swLoop_three_fail faults opts 1 st [] m1 h1,
              swLoop_two_fail faults opts (1 + 1) _ _ m2 h2,
              swLoop_one_ok faults opts (1 + 1 + 1) _ _ h3]
        · exact hc1
        · exact hc2
        · exact hc3
      | some m3 =>
        exfalso
        rw [e0, swLoop_three_fail faults opts 1 st [] m1 h1,
            swLoop_two_fail faults opts (1 + 1) _ _ m2 h2,
            swLoop_one_fail faults opts (1 + 1 + 1) _ _ m3 h3] at h
        simp at h

/-- Options for the C1 witness: a backup-and-restore write of file f
onto branch b, deleting the branch first. -/
def exOptsC1 : SafeWriteOpts String :=
  ⟨"main", "b", true, "f", "x", "m", ["b"], none, none, 9⟩

/-- State for the C1 witness: branch b already exists remotely with one
file, so the backup snapshot is non-trivial. -/
def exStC1 : GitState String :=
  ⟨[⟨0, [], []⟩, ⟨1, [], [("old", "y")]⟩], 2, [("main", 0)], [("main", 0), ("b", 1)],
   "main", [], []⟩

theorem c1_witness :
    ∃ (k : Nat) (stPre : GitState String) (c : GitCommit String),
      1 ≤ k ∧ k ≤ 3 ∧
      (runAttempt ((fun _ => noFaults) k) exOptsC1 k stPre).err = none ∧
      (safeWriteToBranch (fun _ => noFaults) exOptsC1 exStC1).st =
        (runAttempt ((fun _ => noFaults) k) exOptsC1 k stPre).st ∧
      lookupKey exOptsC1.branchName
        (safeWriteToBranch (fun _ => noFaults) exOptsC1 exStC1).st.remoteBranches =
        some c.id ∧
      c ∈ (safeWriteToBranch (fun _ => noFaults) exOptsC1 exStC1).st.commits ∧
      (safeWriteToBranch (fun _ => noFaults) exOptsC1 exStC1).st.treeOf c.id = c.tree ∧
      c.parents = [] ∧
      c.tree = cycleTree exOptsC1
        (if exOptsC1.needBackup = true then
          backupSnapshot ((fun _ => noFaults) k) exOptsC1.branchName exOptsC1.now stPre
        else []) :=
  c1_orphan_isolation String (fun _ => noFaults) exOptsC1 exStC1 (fun _ => rfl) (by decide)

/-! ## C3: the no-diff skip path is unreachable in safeWriteToBranch -/

theorem seqStep_some (r : StRes α) (f : GitState α → StRes α) (m : String)
    (h : r.err = some m) : seqStep r f = r := by
  obtain ⟨e, s, t⟩ := r
  cases e with
  | some m2 => rfl
  | none => simp at h

theorem finallyOrphanCleanup_no_skip (tmpB : String) (st : GitState α) (tr : List Ev)
    (h : Ev.skipCommit ∉ tr) : Ev.skipCommit ∉ (finallyOrphanCleanup tmpB st tr).tr := by
  unfold finallyOrphanCleanup
  by_cases hp : hasKey "temp_placeholder_for_cleanup" st.localBranches <;> simp [hp, h]

theorem backupFinallyPhase_no_skip (o : AttemptFaults) (tmpB mb : String) (st : GitState α)
    (tr : List Ev) (h : Ev.skipCommit ∉ tr) :
    Ev.skipCommit ∉ (backupFinallyPhase o tmpB mb st tr).tr := by
  unfold backupFinallyPhase
  by_cases hf : o.backupFinallyCheckoutFail
  · rw [if_pos hf]
    exact finallyOrphanCleanup_no_skip tmpB st tr h
  · rw [if_neg hf]
    cases hco : checkoutDWIM st mb with
    | some s => simp [h]
    | none => exact finallyOrphanCleanup_no_skip tmpB st tr h

theorem backupTryPhase_tr (o : AttemptFaults) (tmpB dn : String) (cid : Nat)
    (st : GitState α) :
    (backupTryPhase o tmpB dn cid st).2 = [Ev.checkout tmpB] ∨
    (backupTryPhase o tmpB dn cid st).2 = [Ev.checkout tmpB, Ev.mkdir dn] ∨
    (backupTryPhase o tmpB dn cid st).2 = [Ev.checkout tmpB, Ev.mkdir dn, Ev.copyTo dn] := by
  unfold backupTryPhase
  by_cases h1 : (o.backupCheckoutFail || hasKey tmpB st.localBranches) = true
  · rw [if_pos h1]; exact Or.inl rfl
  · rw [if_neg h1]
    by_cases h2 : o.copyFail = true
    · rw [if_pos h2]; exact Or.inr (Or.inl rfl)
    · rw [if_neg h2]; exact Or.inr (Or.inr rfl)

theorem backupStep_no_skip (o : AttemptFaults) (opts : SafeWriteOpts α) (dn : String)
    (st : GitState α) : Ev.skipCommit ∉ (backupStep o opts dn st).tr := by
  unfold backupStep
  by_cases hb : opts.needBackup = true
  · rw [if_pos hb]
    unfold backupExistingBranch
    cases o.fetchFail with
    | some m => simp
    | none =>
    cases o.listRemoteFail with
    | some m => simp
    | none =>
    cases lookupKey opts.branchName st.remoteBranches with
    | none => simp
    | some cid =>
      apply backupFinallyPhase_no_skip
      rcases backupTryPhase_tr o (tempBackupBranch opts.branchName opts.now) dn cid st with
        h | h | h <;> rw [h] <;> simp
  · rw [if_neg hb]; simp

theorem deleteStep_no_skip (bs : List String) (st : GitState α) :
    Ev.skipCommit ∉ ((deleteStep bs : GitState α → StRes α) st).tr := by
  intro hmem
  rcases deleteBranches_trace_shape st bs Ev.skipCommit hmem with h | h | h | ⟨b, _, h | h⟩ <;>
    simp at h

theorem createOrphanBranch_no_skip (mb bn : String) (st : GitState α) :
    Ev.skipCommit ∉ (createOrphanBranch mb bn st).tr := by
  unfold createOrphanBranch
  cases hco : checkoutDWIM st mb with
  | some s => by_cases hk : hasKey bn s.localBranches = true <;> simp [hk]
  | none => by_cases hk : hasKey bn st.localBranches = true <;> simp [hk]

theorem restoreStep_no_skip (o : AttemptFaults) (opts : SafeWriteOpts α) (dn : String)
    (st : GitState α) : Ev.skipCommit ∉ (restoreStep o opts dn st).tr := by
  unfold restoreStep restoreBackup
  by_cases hb : opts.needBackup = true
  · rw [if_pos hb]
    cases lookupKey dn st.dirs with
    | none => simp
    | some items =>
      cases o.restoreFail with
      | some m => simp
      | none => simp
  · rw [if_neg hb]; simp

theorem writeStep_no_skip (o : AttemptFaults) (opts : SafeWriteOpts α) (st : GitState α) :
    Ev.skipCommit ∉ (writeStep o opts st).tr := by
  unfold writeStep
  cases o.writeFail with
  | some m => simp
  | none => simp

theorem hookStep_no_skip (o : AttemptFaults) (opts : SafeWriteOpts α) (st : GitState α) :
    Ev.skipCommit ∉ (hookStep o opts st).tr := by
  unfold hookStep
  cases opts.beforeCommit with
  | none => simp
  | some ws =>
    cases o.hookFail with
    | some m => simp
    | none => simp

theorem commitAndPush_no_skip [DecidableEq α] (o : AttemptFaults) (bn : String)
    (st : GitState α) (hlk : lookupKey st.head st.localBranches = none)
    (hw : st.worktree ≠ []) : Ev.skipCommit ∉ (commitAndPush o bn st).tr := by
  unfold commitAndPush
  rw [hlk]
  have hch : (st.worktree != ([] : List (String × α))) = true := by simpa using hw
  rw [hch, if_pos rfl]
  cases o.commitFail with
  | some m => simp
  | none =>
    cases o.pushFail with
    | some m => simp
    | none => simp

theorem seqStep_no_skip (r : StRes α) (f : GitState α → StRes α)
    (hr : Ev.skipCommit ∉ r.tr) (hf : Ev.skipCommit ∉ (f r.st).tr) :
    Ev.skipCommit ∉ (seqStep r f).tr := by
  obtain ⟨e, s, t⟩ := r
  cases e with
  | some m => exact hr
  | none =>
    show Ev.skipCommit ∉ t ++ (f s).tr
    simp only [List.mem_append]
    rintro (h | h)
    · exact hr h
    · exact hf h

theorem runAttempt_no_skip [DecidableEq α] (o : AttemptFaults) (opts : SafeWriteOpts α)
    (k : Nat) (st : GitState α) : Ev.skipCommit ∉ (runAttempt o opts k st).tr := by
  have hb := backupStep_no_skip o opts (backupDirName opts k) st
  have h1 : Ev.skipCommit ∉ (stage1 o opts (backupDirName opts k) st).tr :=
    seqStep_no_skip _ _ hb (deleteStep_no_skip _ _)
  have h2 : Ev.skipCommit ∉ (stage2 o opts (backupDirName opts k) st).tr :=
    seqStep_no_skip _ _ h1 (createOrphanBranch_no_skip _ _ _)
  have h3 : Ev.skipCommit ∉ (stage3 o opts (backupDirName opts k) st).tr :=
    seqStep_no_skip _ _ h2 (restoreStep_no_skip _ _ _ _)
  have h4 : Ev.skipCommit ∉ (stage4 o opts (backupDirName opts k) st).tr :=
    seqStep_no_skip _ _ h3 (writeStep_no_skip _ _ _)
  have h5 : Ev.skipCommit ∉ (stage5 o opts (backupDirName opts k) st).tr :=
    seqStep_no_skip _ _ h4 (hookStep_no_skip _ _ _)
  have h6 : Ev.skipCommit ∉ (stage6 o opts (backupDirName opts k) st).tr := by
    cases h5e : (stage5 o opts (backupDirName opts k) st).err with
    | some m =>
      have he : stage6 o opts (backupDirName opts k) st =
          stage5 o opts (backupDirName opts k) st :=
        seqStep_some _ _ m h5e
      rw [he]
      exact h5
    | none =>
      -- the commit step runs on an unborn branch with a non-empty tree
      obtain ⟨hq4, hH, hst5⟩ :=
        seqStep_err_none (stage4 o opts (backupDirName opts k) st) (hookStep o opts) h5e
      obtain ⟨hq3, hW, hst4⟩ :=
        seqStep_err_none (stage3 o opts (backupDirName opts k) st) (writeStep o opts) hq4
      obtain ⟨hq2, hR, hst3⟩ :=
        seqStep_err_none (stage2 o opts (backupDirName opts k) st)
          (restoreStep o opts (backupDirName opts k)) hq3
      obtain ⟨hq1, hO, hst2⟩ :=
        seqStep_err_none (stage1 o opts (backupDirName opts k) st)
          (createOrphanBranch opts.masterBranch opts.branchName) hq2
      have Hst5 : (stage5 o opts (backupDirName opts k) st).st =
          (hookStep o opts (stage4 o opts (backupDirName opts k) st).st).st := hst5
      have Hst4 : (stage4 o opts (backupDirName opts k) st).st =
          (writeStep o opts (stage3 o opts (backupDirName opts k) st).st).st := hst4
      have Hst3 : (stage3 o opts (backupDirName opts k) st).st =
          (restoreStep o opts (backupDirName opts k)
            (stage2 o opts (backupDirName opts k) st).st).st := hst3
      have Hst2 : (stage2 o opts (backupDirName opts k) st).st =
          (createOrphanBranch opts.masterBranch opts.branchName
            (stage1 o opts (backupDirName opts k) st).st).st := hst2
      obtain ⟨hOh, hOw, hOk, hOd⟩ :=
        createOrphanBranch_ok opts.masterBranch opts.branchName
          (stage1 o opts (backupDirName opts k) st).st hO
      obtain ⟨hRh, hRl, hRw⟩ :=
        restoreStep_ok o opts (backupDirName opts k)
          (stage2 o opts (backupDirName opts k) st).st hR
      obtain ⟨hWh, hWl, hWw⟩ :=
        writeStep_ok o opts (stage3 o opts (backupDirName opts k) st).st hW
      obtain ⟨hHh, hHl, hHw⟩ :=
        hookStep_ok o opts (stage4 o opts (backupDirName opts k) st).st hH
      have hhead : (stage5 o opts (backupDirName opts k) st).st.head = opts.branchName := by
        rw [Hst5, hHh, Hst4, hWh, Hst3, hRh, Hst2, hOh]
      have hlocal : hasKey opts.branchName
          (stage5 o opts (backupDirName opts k) st).st.localBranches = false := by
        rw [Hst5, hHl, Hst4, hWl, Hst3, hRl, Hst2]
        exact hOk
      have hlk : lookupKey (stage5 o opts (backupDirName opts k) st).st.head
          (stage5 o opts (backupDirName opts k) st).st.localBranches = none := by
        rw [hhead]
        unfold hasKey at hlocal
        cases hl : lookupKey opts.branchName
            (stage5 o opts (backupDirName opts k) st).st.localBranches with
        | none => rfl
        | some cid => rw [hl] at hlocal; simp at hlocal
      have hwt : (stage5 o opts (backupDirName opts k) st).st.worktree ≠ [] := by
        rw [Hst5, hHw, Hst4, hWw]
        exact hookApply_ne_nil opts _ (writeFileContent_ne_nil _ _ _ _)
      exact seqStep_no_skip _ _ h5
        (commitAndPush_no_skip o opts.branchName _ hlk hwt)
  show Ev.skipCommit ∉ (stage6 o opts (backupDirName opts k) st).tr ++
    [Ev.rmdir (backupDirName opts k)]
  simp only [List.mem_append]
  rintro (h | h)
  · exact h6 h
  · simp at h

/-- The skip-commit path is unreachable across the whole retry loop. -/
theorem safeWrite_no_skip (α : Type) [DecidableEq α] (faults : Nat → AttemptFaults)
    (opts : SafeWriteOpts α) (st : GitState α) :
    Ev.skipCommit ∉ (safeWriteToBranch faults opts st).trace := by
  have e0 : safeWriteToBranch faults opts st = swLoop faults opts 3 1 st [] := rfl
  have n1 := runAttempt_no_skip (faults 1) opts 1 st
  cases h1 : (runAttempt (faults 1) opts 1 st).err with
  | none =>
    rw [e0, swLoop_three_ok faults opts 1 st [] h1]
    simpa using n1
  | some m1 =>
    have n2 := runAttempt_no_skip (faults (1 + 1)) opts (1 + 1)
      (runAttempt (faults 1) opts 1 st).st
    cases h2 : (runAttempt (faults (1 + 1)) opts (1 + 1)
        (runAttempt (faults 1) opts 1 st).st).err with
    | none =>
      rw [e0, swLoop_three_fail faults opts 1 st [] m1 h1,
          swLoop_two_ok faults opts (1 + 1) _ _ h2]
      simp [List.mem_append, n1, n2]
    | some m2 =>
      have n3 := runAttempt_no_skip (faults (1 + 1 + 1)) opts (1 + 1 + 1)
        (runAttempt (faults (1 + 1)) opts (1 + 1) (runAttempt (faults 1) opts 1 st).st).st
      cases h3 : (runAttempt (faults (1 + 1 + 1)) opts (1 + 1 + 1)
          (runAttempt (faults (1 + 1)) opts (1 + 1)
            (runAttempt (faults 1) opts 1 st).st).st).err with
      | none =>
        rw [e0, swLoop_three_fail faults opts 1 st [] m1 h1,
            swLoop_two_fail faults opts (1 + 1) _ _ m2 h2,
            swLoop_one_ok faults opts (1 + 1 + 1) _ _ h3]
        simp [List.mem_append, n1, n2, n3]
      | some m3 =>
        rw [e0, swLoop_three_fail faults opts 1 st [] m1 h1,
            swLoop_two_fail faults opts (1 + 1) _ _ m2 h2,
            swLoop_one_fail faults opts (1 + 1 + 1) _ _ m3 h3]
        simp [List.mem_append, n1, n2, n3]

theorem c8_witness :
    lookupKey (backupDirName exOptsC2 1)
      (safeWriteToBranch exFaultsC2 exOptsC2 exStC2).st.dirs = none :=
  (c8_cleanup_guarantee String exFaultsC2 exOptsC2 exStC2).1 1 (by omega) (by decide)

/-- Options for the C3 scenario: write file f with content x to branch
b, backing up and deleting the branch first, exactly like the
append-style callers do. -/
def exOptsC3 : SafeWriteOpts String :=
  ⟨"main", "b", true, "f", "x", "m", ["b"], none, none, 7⟩

/-- Initial state for the C3 scenario: a fresh clone with only main. -/
def exStC3 : GitState String :=
  ⟨[⟨0, [], []⟩], 1, [("main", 0)], [("main", 0)], "main", [], []⟩

/-- State after the first safeWriteToBranch call of the C3 scenario. -/
def exStC3b : GitState String :=
  (safeWriteToBranch (fun _ => noFaults) exOptsC3 exStC3).st

/-- C3 counterexample: the second call with identical content does not
skip commit and push.  After the first call the branch tip is commit 1;
the second identical call deletes and recreates the branch as a fresh
unborn orphan, so the status check sees every file as new, and the call
creates and pushes a new commit 2 — no skip event occurs. -/
theorem c3_counterexample :
    (safeWriteToBranch (fun _ => noFaults) exOptsC3 exStC3b).err = none ∧
    Ev.skipCommit ∉ (safeWriteToBranch (fun _ => noFaults) exOptsC3 exStC3b).trace ∧
    Ev.commitMade 2 ∈ (safeWriteToBranch (fun _ => noFaults) exOptsC3 exStC3b).trace ∧
    Ev.push "b" ∈ (safeWriteToBranch (fun _ => noFaults) exOptsC3 exStC3b).trace ∧
    lookupKey "b" exStC3b.remoteBranches = some 1 ∧
    lookupKey "b"
      (safeWriteToBranch (fun _ => noFaults) exOptsC3 exStC3b).st.remoteBranches = some 2 := by
  decide

/-- C3 (amended): calling safeWriteToBranch twice in a row with
identical content leaves the target branch with a single parentless
commit carrying the same tree, but the second call does not detect a
clean tree and does not skip commit/push: the skip path of
commitAndPush is unreachable in this protocol (the branch is always a
freshly created orphan with no commit to diff against and the target
file is always written), so the second call creates and pushes a fresh
commit with identical content. -/
theorem c3_second_call_commits_fresh :
    (∀ (α : Type) [inst : DecidableEq α] (faults : Nat → AttemptFaults)
        (opts : SafeWriteOpts α) (st : GitState α),
      Ev.skipCommit ∉ (safeWriteToBranch faults opts st).trace) ∧
    ((safeWriteToBranch (fun _ => noFaults) exOptsC3 exStC3b).err = none ∧
      lookupKey "b"
        (safeWriteToBranch (fun _ => noFaults) exOptsC3 exStC3b).st.remoteBranches = some 2 ∧
      GitCommit.mk 2 [] [("f", "x")] ∈
        (safeWriteToBranch (fun _ => noFaults) exOptsC3 exStC3b).st.commits ∧
      (safeWriteToBranch (fun _ => noFaults) exOptsC3 exStC3b).st.treeOf 2 = [("f", "x")] ∧
      exStC3b.treeOf 1 = [("f", "x")]) := by
  constructor
  · intro α inst faults opts st
    exact @safeWrite_no_skip α inst faults opts st
  · decide

end TrainList
